import Mathlib

/-!
# ppstack: rendering of goroutine stack dumps

A shallow embedding of `ppstack.go` and the properties of its path formatter,
colour classifier, layout calculator, line and header renderers, of the
capture loop `getStack` and of `Print` with its self-exclusion step.

Go strings are modelled by `String` (valid UTF-8 text): `len` is the byte
length and `fmt` measures padding in runes.  Values of the panicparse `stack`
package are modelled by structures that carry the fields `ppstack.go` reads;
results of library methods (`Args.String`, `SleepString`, `IsRace`,
`Aggregate`, `ScanSnapshot`) and the constants of the `ansi` package are
carried as data or taken as parameters.
-/

namespace Ppstack

/-! ## Go primitives -/

/-- Go `len(s)` for a string: the number of bytes of its UTF-8 encoding. -/
def goLen (s : String) : Nat := s.utf8ByteSize

/-- Rune count of a string (`utf8.RuneCountInString`), the measure `fmt` pads with. -/
def runeCount (s : String) : Nat := s.length

/-- Verb `%d` of `fmt` applied to a signed integer. -/
def fmtD (i : Int) : String :=
  if i < 0 then "-" ++ Nat.repr i.natAbs else Nat.repr i.natAbs

/-- A run of `n` blanks. -/
def spaces (n : Nat) : String := String.mk (List.replicate n ' ')

/-- Go `fmt.tooLarge`: a width whose magnitude exceeds 1e6 is refused. -/
def tooLarge (x : Int) : Bool := decide (x > 1000000) || decide (x < -1000000)

/-- Text `fmt` emits in place of a refused `*` width. -/
def badWidthString : String := "%!(BADWIDTH)"

/-- Verb `%-*s` of `fmt`: the operand first, then blanks up to `|wid|` runes;
a refused width prints `badWidthString` and then the operand unpadded. -/
def fmtLeftS (wid : Int) (s : String) : String :=
  if tooLarge wid then badWidthString ++ s
  else s ++ spaces (wid.natAbs - runeCount s)

/-- Verb `%08x` of `fmt` applied to an unsigned integer: lower-case hexadecimal
digits, zero-filled on the left up to eight digits. -/
def fmtX08 (n : Nat) : String :=
  String.mk (List.replicate (8 - (Nat.toDigits 16 n).length) '0' ++ Nat.toDigits 16 n)

/-- Go `strings.Join`. -/
def stringsJoin (elems : List String) (sep : String) : String :=
  match elems with
  | [] => ""
  | e :: rest => rest.foldl (fun acc x => acc ++ sep ++ x) e

/-! ## Data model (package `stack` of panicparse, as read by ppstack.go) -/

/-- Provenance of a call (`stack.Location`); `other` stands for any value that
is none of the five named constants. -/
inductive Location where
  | LocationUnknown
  | GoMod
  | GOPATH
  | GoPkg
  | Stdlib
  | other (raw : Int)
  deriving DecidableEq

/-- Function of a call frame (`stack.Func`). -/
structure Func where
  DirName : String
  Name : String
  IsExported : Bool
  IsPkgMain : Bool
  deriving DecidableEq

/-- Argument list of a call (`stack.Args`), carried as the text its `String()`
method renders. -/
structure Args where
  rendered : String
  deriving DecidableEq

/-- Method `String()` of `stack.Args`. -/
def Args.String (a : Args) : String := a.rendered

/-- One frame (`stack.Call`). -/
structure Call where
  Func : Func
  Args : Args
  RemoteSrcPath : String
  Line : Int
  SrcName : String
  LocalSrcPath : String
  RelSrcPath : String
  Location : Location
  deriving DecidableEq

/-- Call stack (`stack.Stack`). -/
structure Stack where
  Calls : List Call
  Elided : Bool
  deriving DecidableEq

/-- Signature of a goroutine (`stack.Signature`); `sleep` is the text its
`SleepString()` method returns. -/
structure Signature where
  State : String
  CreatedBy : Stack
  sleep : String
  Stack : Stack
  Locked : Bool
  deriving DecidableEq

/-- Method `SleepString()` of `stack.Signature`. -/
def Signature.SleepString (s : Signature) : String := s.sleep

/-- One goroutine (`stack.Goroutine`, which embeds its `Signature`). -/
structure Goroutine where
  Signature : Signature
  ID : Int
  First : Bool
  RaceWrite : Bool
  RaceAddr : Nat
  deriving DecidableEq

/-- Group of goroutines with one signature (`stack.Bucket`). -/
structure Bucket where
  Signature : Signature
  IDs : List Int
  First : Bool
  deriving DecidableEq

/-- Parsed capture (`stack.Snapshot`). -/
structure Snapshot where
  Goroutines : List Goroutine
  deriving DecidableEq

/-- Aggregated capture (`stack.Aggregated`). -/
structure Aggregated where
  Buckets : List Bucket
  deriving DecidableEq

/-- Colour configuration of the renderer. -/
structure Palette where
  EOLReset : String
  RoutineFirst : String
  Routine : String
  CreatedBy : String
  Race : String
  Package : String
  SrcFile : String
  FuncMain : String
  FuncLocationUnknown : String
  FuncLocationUnknownExported : String
  FuncGoMod : String
  FuncGoModExported : String
  FuncGOPATH : String
  FuncGOPATHExported : String
  FuncGoPkg : String
  FuncGoPkgExported : String
  FuncStdLib : String
  FuncStdLibExported : String
  Arguments : String
  deriving DecidableEq

/-! ## Path formatter -/

/-- Path display mode (`type pathFormat int`). -/
abbrev pathFormat := Int

/-- Constant `fullPath` (iota 0). -/
def fullPath : pathFormat := 0
/-- Constant `relPath` (iota 1). -/
def relPath : pathFormat := 1
/-- Constant `basePath` (iota 2). -/
def basePath : pathFormat := 2

/-- Body of `case fullPath:` of `formatCall`, also reached by the `fallthrough`
of `case relPath:`. -/
def formatCallFull (c : Call) : String :=
  if c.LocalSrcPath ≠ "" then
    c.LocalSrcPath ++ ":" ++ fmtD c.Line
  else
    c.RemoteSrcPath ++ ":" ++ fmtD c.Line

/-- Method `pathFormat.formatCall`. -/
def formatCall (pf : pathFormat) (c : Call) : String :=
  if pf = relPath then
    if c.RelSrcPath ≠ "" then
      c.RelSrcPath ++ ":" ++ fmtD c.Line
    else
      formatCallFull c
  else if pf = fullPath then
    formatCallFull c
  else
    c.SrcName ++ ":" ++ fmtD c.Line

/-! ## Colour classifier -/

/-- Method `Palette.funcColor`. -/
def Palette.funcColor (p : Palette) (l : Location) (main exported : Bool) : String :=
  if main then
    p.FuncMain
  else
    match l with
    | .GoMod => if exported then p.FuncGoModExported else p.FuncGoMod
    | .GOPATH => if exported then p.FuncGOPATHExported else p.FuncGOPATH
    | .GoPkg => if exported then p.FuncGoPkgExported else p.FuncGoPkg
    | .Stdlib => if exported then p.FuncStdLibExported else p.FuncStdLib
    | _ => if exported then p.FuncLocationUnknownExported else p.FuncLocationUnknown

/-- Method `Palette.functionColor`. -/
def Palette.functionColor (p : Palette) (c : Call) : String :=
  p.funcColor c.Location c.Func.IsPkgMain c.Func.IsExported

/-! ## Layout calculator -/

/-- Body of the inner loop of `calcBucketsLengths` and `calcGoroutinesLengths`:
one call updates the pair `(srcLen, pkgLen)`. -/
def calcCall (pf : pathFormat) (acc : Nat × Nat) (line : Call) : Nat × Nat :=
  let srcLen := if goLen (formatCall pf line) > acc.1 then goLen (formatCall pf line) else acc.1
  let pkgLen := if goLen line.Func.DirName > acc.2 then goLen line.Func.DirName else acc.2
  (srcLen, pkgLen)

/-- Function `calcBucketsLengths`, returning `(srcLen, pkgLen)`. -/
def calcBucketsLengths (a : Aggregated) (pf : pathFormat) : Nat × Nat :=
  a.Buckets.foldl (fun acc e => e.Signature.Stack.Calls.foldl (calcCall pf) acc) (0, 0)

/-- Function `calcGoroutinesLengths`, returning `(srcLen, pkgLen)`. -/
def calcGoroutinesLengths (s : Snapshot) (pf : pathFormat) : Nat × Nat :=
  s.Goroutines.foldl (fun acc e => e.Signature.Stack.Calls.foldl (calcCall pf) acc) (0, 0)

/-! ## Line and header renderer -/

/-- Method `Palette.routineColor`. -/
def Palette.routineColor (p : Palette) (first multipleBuckets : Bool) : String :=
  if first && multipleBuckets then p.RoutineFirst else p.Routine

/-- Method `pathFormat.createdByString`. -/
def createdByString (pf : pathFormat) (s : Signature) : String :=
  match s.CreatedBy.Calls with
  | [] => ""
  | c0 :: _ => c0.Func.DirName ++ "." ++ c0.Func.Name ++ " @ " ++ formatCall pf c0

/-- The three updates of `extra` shared by `BucketHeader` and `GoroutineHeader`:
sleep text, lock mark, creator. -/
def headerExtra (p : Palette) (sig : Signature) (pf : pathFormat) : String :=
  let extra := ""
  let extra := if sig.SleepString ≠ "" then extra ++ (" [" ++ sig.SleepString ++ "]") else extra
  let extra := if sig.Locked then extra ++ " [locked]" else extra
  let extra :=
    if createdByString pf sig ≠ "" then
      extra ++ (p.CreatedBy ++ " [Created by " ++ createdByString pf sig ++ "]")
    else extra
  extra

/-- Method `Palette.BucketHeader`. -/
def Palette.BucketHeader (p : Palette) (b : Bucket) (pf : pathFormat)
    (multipleBuckets : Bool) : String :=
  let extra := headerExtra p b.Signature pf
  p.routineColor b.First multipleBuckets ++ fmtD (b.IDs.length : Int) ++ ": " ++
    b.Signature.State ++ extra ++ p.EOLReset ++ "\n"

/-- Method `Palette.GoroutineHeader`. -/
def Palette.GoroutineHeader (p : Palette) (g : Goroutine) (pf : pathFormat)
    (multipleGoroutines : Bool) : String :=
  let extra := headerExtra p g.Signature pf
  let extra :=
    if g.RaceAddr ≠ 0 then
      let r := if g.RaceWrite then "write" else "read"
      extra ++ (p.EOLReset ++ p.Race ++ " Race " ++ r ++ " @ 0x" ++ fmtX08 g.RaceAddr)
    else extra
  p.routineColor g.First multipleGoroutines ++ fmtD g.ID ++ ": " ++
    g.Signature.State ++ extra ++ p.EOLReset ++ "\n"

/-- Method `Palette.callLine`. -/
def Palette.callLine (p : Palette) (line : Call) (srcLen pkgLen : Int) (pf : pathFormat) :
    String :=
  "    " ++ p.Package ++ fmtLeftS pkgLen line.Func.DirName ++ " " ++
    p.SrcFile ++ fmtLeftS srcLen (formatCall pf line) ++ " " ++
    p.functionColor line ++ line.Func.Name ++
    p.Arguments ++ "(" ++ line.Args.String ++ ")" ++
    p.EOLReset

/-- Method `Palette.StackLines`. -/
def Palette.StackLines (p : Palette) (signature : Signature) (srcLen pkgLen : Int)
    (pf : pathFormat) : String :=
  let out := signature.Stack.Calls.map (fun c => p.callLine c srcLen pkgLen pf)
  let out := if signature.Stack.Elided then out ++ ["    (...)"] else out
  stringsJoin out "\n" ++ "\n"

/-! ## Snapshot renderer -/

/-- Constants and the function of package `ansi` that ppstack.go uses. -/
structure Ansi where
  DefaultFG : String
  LightBlack : String
  LightRed : String
  White : String
  Red : String
  Cyan : String
  Blue : String
  Green : String
  ColorCode : String → String

/-- Constant `resetFG`. -/
def resetFG (a : Ansi) : String := a.DefaultFG ++ "\x1b[m"

/-- Variable `defaultPalette`; the field `Routine` is not set there and so is
the empty string. -/
def defaultPalette (a : Ansi) : Palette where
  EOLReset := resetFG a
  RoutineFirst := a.ColorCode "magenta+b"
  Routine := ""
  CreatedBy := a.LightBlack
  Race := a.LightRed
  Package := a.ColorCode "default+b"
  SrcFile := resetFG a
  FuncMain := a.ColorCode "yellow+b"
  FuncLocationUnknown := a.White
  FuncLocationUnknownExported := a.ColorCode "white+b"
  FuncGoMod := a.Red
  FuncGoModExported := a.ColorCode "red+b"
  FuncGOPATH := a.Cyan
  FuncGOPATHExported := a.ColorCode "cyan+b"
  FuncGoPkg := a.Blue
  FuncGoPkgExported := a.ColorCode "blue+b"
  FuncStdLib := a.Green
  FuncStdLibExported := a.ColorCode "green+b"
  Arguments := resetFG a

/-- Go error values that `Print` meets: `io.EOF`, an error of the snapshot
engine, and a value made by `errors.New`. -/
inductive GoError where
  | EOF
  | engine (code : Nat)
  | New (text : String)
  deriving DecidableEq

/-- The two methods of `stack.Snapshot` that `Print` calls. -/
structure Engine where
  IsRace : Snapshot → Bool
  Aggregate : Snapshot → Aggregated

/-- An `io.Writer` as a state transformer: `WriteString` yields the next state
and the error of the write, if any. -/
structure Writer (σ : Type) where
  WriteString : σ → String → σ × Option GoError

/-- The loop of the block `// Remove self from goroutine`: the calls appended to
`newCalls`. -/
def removeSelfCalls (thisFilesPath : String) (calls : List Call) : List Call :=
  calls.foldl
    (fun newCalls call =>
      if call.RemoteSrcPath ≠ thisFilesPath then newCalls ++ [call] else newCalls)
    []

/-- The block `// Remove self from goroutine` of `Print`. -/
def removeSelf (s : Snapshot) : Snapshot :=
  match s.Goroutines with
  | [] => s
  | g :: rest =>
    match g.Signature.Stack.Calls with
    | [] => s
    | c0 :: _ =>
      let thisFilesPath := c0.RemoteSrcPath
      let newCalls := removeSelfCalls thisFilesPath g.Signature.Stack.Calls
      { s with Goroutines :=
          { g with Signature :=
              { g.Signature with Stack := { g.Signature.Stack with Calls := newCalls } } }
          :: rest }

/-- The write loop of `Print` over buckets; the results of the writes are dropped. -/
def writeBuckets {σ : Type} (p : Palette) (pf : pathFormat) (w : Writer σ)
    (srcLen pkgLen : Int) (multi : Bool) (buckets : List Bucket) (out : σ) : σ :=
  buckets.foldl
    (fun out e =>
      let header := p.BucketHeader e pf multi
      let out := (w.WriteString out header).1
      (w.WriteString out (p.StackLines e.Signature srcLen pkgLen pf)).1)
    out

/-- The write loop of `Print` over goroutines; the results of the writes are dropped. -/
def writeGoroutines {σ : Type} (p : Palette) (pf : pathFormat) (w : Writer σ)
    (srcLen pkgLen : Int) (multi : Bool) (goroutines : List Goroutine) (out : σ) : σ :=
  goroutines.foldl
    (fun out e =>
      let header := p.GoroutineHeader e pf multi
      let out := (w.WriteString out header).1
      (w.WriteString out (p.StackLines e.Signature srcLen pkgLen pf)).1)
    out

/-- Function `Print`, from the result `(s, err)` of `stack.ScanSnapshot` on: the
final state of the sink and the error returned. -/
def Print {σ : Type} (a : Ansi) (eng : Engine) (w : Writer σ) (target : σ)
    (scan : Option Snapshot × Option GoError) : σ × Option GoError :=
  let out := target
  let pf := relPath
  let p := defaultPalette a
  match scan with
  | (s, err) =>
    if err ≠ none ∧ err ≠ some GoError.EOF then (out, err)
    else
      match s with
      | none => (out, some (GoError.New "unable to get tb"))
      | some s =>
        let s := removeSelf s
        if ¬ eng.IsRace s then
          let a := eng.Aggregate s
          let lens := calcBucketsLengths a pf
          let multi := decide (a.Buckets.length > 1)
          (writeBuckets p pf w lens.1 lens.2 multi a.Buckets out, none)
        else
          let lens := calcGoroutinesLengths s pf
          let multi := decide (s.Goroutines.length > 1)
          (writeGoroutines p pf w lens.1 lens.2 multi s.Goroutines out, none)

/-- A sink that records every string written to it and never fails. -/
def listWriter : Writer (List String) where
  WriteString := fun st s => (st ++ [s], none)

/-! ## The specification's wording, for comparison -/

/-- Padding on the left, as the words "left-padded to a width" say: blanks up
to the width first, then the text, which is never cut. -/
def leftPadded (wid : Int) (s : String) : String :=
  spaces (wid.toNat - runeCount s) ++ s

/-- The call line as the specification words it, both columns left-padded. -/
def callLineLeftPadded (p : Palette) (line : Call) (srcLen pkgLen : Int) (pf : pathFormat) :
    String :=
  "    " ++ p.Package ++ leftPadded pkgLen line.Func.DirName ++ " " ++
    p.SrcFile ++ leftPadded srcLen (formatCall pf line) ++ " " ++
    p.functionColor line ++ line.Func.Name ++
    p.Arguments ++ "(" ++ line.Args.String ++ ")" ++
    p.EOLReset

/-- Self-exclusion as the specification words it: the longest run of leading
frames that have the first frame's path is dropped, the rest is kept. -/
def dropLeadingSelf (calls : List Call) : List Call :=
  match calls with
  | [] => []
  | c0 :: _ => calls.dropWhile (fun c => c.RemoteSrcPath == c0.RemoteSrcPath)

/-! ## Sample values -/

/-- A palette with a distinct one- or two-letter code for every role. -/
def samplePalette : Palette :=
  ⟨"R", "F", "r", "C", "!", "P", "S", "M", "u", "U", "m", "M2", "g", "G", "k", "K", "s", "S2", "A"⟩

/-- A frame of `main.main` at `a.go:12`. -/
def sampleCall : Call :=
  ⟨⟨"main", "main", false, true⟩, ⟨"1, 2"⟩, "/r/a.go", 12, "a.go", "/l/a.go", "a.go",
    .Stdlib⟩

/-- A frame of the renderer itself, in `ppstack.go`. -/
def selfCall (name : String) (line : Int) : Call :=
  ⟨⟨"ppstack", name, true, false⟩, ⟨""⟩, "/p/ppstack.go", line, "ppstack.go",
    "/p/ppstack.go", "ppstack.go", .GoMod⟩

/-- A goroutine whose stack has a frame of `ppstack.go`, then `sampleCall`, then
a frame of `ppstack.go` again. -/
def sampleGoroutine : Goroutine :=
  ⟨⟨"running", ⟨[], false⟩, "", ⟨[selfCall "getStack" 252, sampleCall, selfCall "Print" 266],
    false⟩, false⟩, 1, true, false, 0⟩

/-- A snapshot with `sampleGoroutine` alone. -/
def sampleSnapshot : Snapshot := ⟨[sampleGoroutine]⟩

/-! ## Reading a rendering back -/

/-- Value of one lower-case hexadecimal digit, `none` for any other character. -/
def hexDigitValue (c : Char) : Option Nat :=
  if '0' ≤ c ∧ c ≤ '9' then some (c.toNat - '0'.toNat)
  else if 'a' ≤ c ∧ c ≤ 'f' then some (c.toNat - 'a'.toNat + 10)
  else none

/-- One step of reading a hexadecimal numeral, most significant digit first. -/
def hexStep (acc : Option Nat) (c : Char) : Option Nat :=
  match acc, hexDigitValue c with
  | some v, some d => some (16 * v + d)
  | _, _ => none

/-- Value of a string of hexadecimal digits, `none` when a character is no digit. -/
def hexValue (s : String) : Option Nat := s.data.foldl hexStep (some 0)

/-- Path separators: the slash, and the backslash of Windows paths. -/
def isPathSeparator (c : Char) : Bool := c == '/' || c == '\\'

/-! ## Capture of the dump -/

/-- Go `runtime.Stack` for a dump that is the same at every attempt: the first
`min t n` bytes of the dump are written to the buffer of length `n`, the rest of
the buffer is left as it is, and that count is returned. -/
def runtimeStack (dump : List Nat) (buf : List Nat) : List Nat × Nat :=
  let n := min dump.length buf.length
  (dump.take n ++ buf.drop n, n)

/-- Go `make([]byte, n)`: `n` zero bytes. -/
def makeBytes (n : Nat) : List Nat := List.replicate n 0

/-- The loop of `getStack`, with a bound on the number of attempts (`none` when
the bound is reached): the bytes returned and the length of the last buffer. -/
def getStackLoop (dump : List Nat) : Nat → List Nat → Option (List Nat × Nat)
  | 0, _ => none
  | fuel + 1, buf =>
    let r := runtimeStack dump buf
    if r.2 < buf.length then some (r.1.take r.2, buf.length)
    else getStackLoop dump fuel (makeBytes (2 * buf.length))

/-- Function `getStack`: the loop started on a buffer of 2048 bytes. -/
def getStack (dump : List Nat) (fuel : Nat) : Option (List Nat) :=
  (getStackLoop dump fuel (makeBytes 2048)).map Prod.fst

/-! ## More sample values -/

/-- A sink whose every write fails and records nothing. -/
def failingWriter : Writer (List String) where
  WriteString := fun st _ => (st, some (GoError.New "write failed"))

/-- A goroutine with a race address of more than 32 bits. -/
def raceGoroutine : Goroutine :=
  ⟨⟨"running", ⟨[], false⟩, "", ⟨[sampleCall], false⟩, false⟩, 7, false, true, 0xc000012345⟩

/-- A frame whose `SrcName` holds a directory as well. -/
def slashCall : Call :=
  ⟨⟨"main", "main", false, true⟩, ⟨""⟩, "/r/x/y.go", 1, "x/y.go", "", "", .Stdlib⟩

/-- A name made of the letter `d` repeated `n` times. -/
def longName (n : Nat) : String := String.mk (List.replicate n 'd')

/-- A frame whose directory name is 1000001 bytes long. -/
def hugeCall : Call :=
  ⟨⟨longName 1000001, "f", false, false⟩, ⟨""⟩, "/r/a.go", 1, "a.go", "", "", .GoMod⟩

/-- A bucket with `hugeCall` alone. -/
def hugeBucket : Bucket :=
  ⟨⟨"running", ⟨[], false⟩, "", ⟨[hugeCall], false⟩, false⟩, [1], false⟩

/-! ## Path formatter: properties -/

/-- C1: `formatCall` returns the chosen path, a colon and the line in decimal.
In relative mode the path is `RelSrcPath` when that is non-empty and otherwise
the result is what full mode returns; in full mode it is `LocalSrcPath` when
that is non-empty and `RemoteSrcPath` otherwise; in base mode and for every
other mode value it is `SrcName`. -/
theorem formatCall_spec (pf : pathFormat) (c : Call) :
    (pf = relPath → c.RelSrcPath ≠ "" →
      formatCall pf c = c.RelSrcPath ++ ":" ++ fmtD c.Line) ∧
    (pf = relPath → c.RelSrcPath = "" → formatCall pf c = formatCall fullPath c) ∧
    (pf = fullPath → c.LocalSrcPath ≠ "" →
      formatCall pf c = c.LocalSrcPath ++ ":" ++ fmtD c.Line) ∧
    (pf = fullPath → c.LocalSrcPath = "" →
      formatCall pf c = c.RemoteSrcPath ++ ":" ++ fmtD c.Line) ∧
    (pf ≠ relPath → pf ≠ fullPath → formatCall pf c = c.SrcName ++ ":" ++ fmtD c.Line) ∧
    formatCall basePath c = c.SrcName ++ ":" ++ fmtD c.Line := by
  refine ⟨?_, ?_, ?_, ?_, ?_, ?_⟩
  · intro hpf hrel
    simp [formatCall, hpf, hrel]
  · intro hpf hrel
    simp [formatCall, hpf, hrel, relPath, fullPath]
  · intro hpf hloc
    simp [formatCall, formatCallFull, hpf, hloc, relPath, fullPath]
  · intro hpf hloc
    simp [formatCall, formatCallFull, hpf, hloc, relPath, fullPath]
  · intro h1 h2
    simp [formatCall, h1, h2]
  · simp [formatCall, relPath, fullPath, basePath]

/-! ## Colour classifier: properties -/

/-- C2: an entry-point call gets the colour `FuncMain`, whatever its provenance
and exported flag; `functionColor` passes the call's `IsPkgMain` flag as `main`. -/
theorem funcColor_main (p : Palette) (l : Location) (exported : Bool) :
    p.funcColor l true exported = p.FuncMain ∧
    ∀ c : Call, c.Func.IsPkgMain = true → p.functionColor c = p.FuncMain := by
  refine ⟨by simp [Palette.funcColor], ?_⟩
  intro c hc
  simp [Palette.functionColor, Palette.funcColor, hc]

/-- C3: for a call that is no entry point `funcColor` returns the palette field
of the provenance, the `Exported` variant exactly when `exported` is set;
`LocationUnknown` and every unrecognized provenance share one pair of fields;
so every result is one of the eleven function colours of the palette. -/
theorem funcColor_not_main (p : Palette) :
    (p.funcColor .GoMod false true = p.FuncGoModExported ∧
      p.funcColor .GoMod false false = p.FuncGoMod) ∧
    (p.funcColor .GOPATH false true = p.FuncGOPATHExported ∧
      p.funcColor .GOPATH false false = p.FuncGOPATH) ∧
    (p.funcColor .GoPkg false true = p.FuncGoPkgExported ∧
      p.funcColor .GoPkg false false = p.FuncGoPkg) ∧
    (p.funcColor .Stdlib false true = p.FuncStdLibExported ∧
      p.funcColor .Stdlib false false = p.FuncStdLib) ∧
    (p.funcColor .LocationUnknown false true = p.FuncLocationUnknownExported ∧
      p.funcColor .LocationUnknown false false = p.FuncLocationUnknown) ∧
    (∀ raw : Int, p.funcColor (.other raw) false true = p.FuncLocationUnknownExported ∧
      p.funcColor (.other raw) false false = p.FuncLocationUnknown) ∧
    (∀ (l : Location) (main exported : Bool),
      p.funcColor l main exported ∈
        [p.FuncMain, p.FuncLocationUnknown, p.FuncLocationUnknownExported,
         p.FuncGoMod, p.FuncGoModExported, p.FuncGOPATH, p.FuncGOPATHExported,
         p.FuncGoPkg, p.FuncGoPkgExported, p.FuncStdLib, p.FuncStdLibExported]) := by
  refine ⟨⟨rfl, rfl⟩, ⟨rfl, rfl⟩, ⟨rfl, rfl⟩, ⟨rfl, rfl⟩, ⟨rfl, rfl⟩, fun _ => ⟨rfl, rfl⟩, ?_⟩
  intro l main exported
  cases main <;> cases exported <;> cases l <;> simp [Palette.funcColor]


/-! ## Layout calculator: properties -/

/-- One step of a running maximum, as written in the loops (`if l > m { m = l }`). -/
theorem runMax_ge (h : Call → Nat) (calls : List Call) (m : Nat) :
    m ≤ calls.foldl (fun m c => if h c > m then h c else m) m := by
  induction calls generalizing m with
  | nil => simp
  | cons c cs ih =>
    simp only [List.foldl_cons]
    refine le_trans ?_ (ih _)
    split <;> omega

theorem runMax_bound (h : Call → Nat) (calls : List Call) (m : Nat) :
    ∀ c ∈ calls, h c ≤ calls.foldl (fun m c => if h c > m then h c else m) m := by
  induction calls generalizing m with
  | nil => simp
  | cons c cs ih =>
    intro x hx
    simp only [List.foldl_cons]
    rcases List.mem_cons.1 hx with rfl | hx
    · refine le_trans ?_ (runMax_ge h cs _)
      split <;> omega
    · exact ih _ x hx

theorem runMax_attained (h : Call → Nat) (calls : List Call) (m : Nat) :
    calls.foldl (fun m c => if h c > m then h c else m) m = m ∨
      ∃ c ∈ calls, h c = calls.foldl (fun m c => if h c > m then h c else m) m := by
  induction calls generalizing m with
  | nil => simp
  | cons c cs ih =>
    simp only [List.foldl_cons]
    rcases ih (if h c > m then h c else m) with heq | ⟨x, hx, hxe⟩
    · rw [heq]
      by_cases hc : h c > m
      · right
        exact ⟨c, List.mem_cons_self _ _, by simp [hc]⟩
      · left
        simp [hc]
    · right
      exact ⟨x, List.mem_cons_of_mem _ hx, hxe⟩

theorem calcCall_foldl (pf : pathFormat) (calls : List Call) (acc : Nat × Nat) :
    calls.foldl (calcCall pf) acc =
      (calls.foldl (fun m c => if goLen (formatCall pf c) > m then goLen (formatCall pf c) else m)
          acc.1,
       calls.foldl (fun m c => if goLen c.Func.DirName > m then goLen c.Func.DirName else m)
          acc.2) := by
  induction calls generalizing acc with
  | nil => simp
  | cons c cs ih => simp only [List.foldl_cons, ih, calcCall]

theorem nested_foldl (pf : pathFormat) (ls : List (List Call)) (acc : Nat × Nat) :
    ls.foldl (fun acc l => l.foldl (calcCall pf) acc) acc =
      (ls.foldl (fun m l =>
          l.foldl (fun m c => if goLen (formatCall pf c) > m then goLen (formatCall pf c) else m) m)
          acc.1,
       ls.foldl (fun m l =>
          l.foldl (fun m c => if goLen c.Func.DirName > m then goLen c.Func.DirName else m) m)
          acc.2) := by
  induction ls generalizing acc with
  | nil => simp
  | cons l ls ih => rw [List.foldl_cons, ih, calcCall_foldl]; rfl

theorem nestedMax_ge (h : Call → Nat) (ls : List (List Call)) (m : Nat) :
    m ≤ ls.foldl (fun m l => l.foldl (fun m c => if h c > m then h c else m) m) m := by
  induction ls generalizing m with
  | nil => simp
  | cons l ls ih =>
    simp only [List.foldl_cons]
    exact le_trans (runMax_ge h l m) (ih _)

theorem nestedMax_bound (h : Call → Nat) (ls : List (List Call)) (m : Nat) :
    ∀ l ∈ ls, ∀ c ∈ l,
      h c ≤ ls.foldl (fun m l => l.foldl (fun m c => if h c > m then h c else m) m) m := by
  induction ls generalizing m with
  | nil => simp
  | cons l0 ls ih =>
    intro l hl c hc
    simp only [List.foldl_cons]
    rcases List.mem_cons.1 hl with rfl | hl
    · exact le_trans (runMax_bound h l m c hc) (nestedMax_ge h ls _)
    · exact ih _ l hl c hc

theorem nestedMax_attained (h : Call → Nat) (ls : List (List Call)) (m : Nat) :
    ls.foldl (fun m l => l.foldl (fun m c => if h c > m then h c else m) m) m = m ∨
      ∃ l ∈ ls, ∃ c ∈ l,
        h c = ls.foldl (fun m l => l.foldl (fun m c => if h c > m then h c else m) m) m := by
  induction ls generalizing m with
  | nil => simp
  | cons l0 ls ih =>
    simp only [List.foldl_cons]
    rcases ih (l0.foldl (fun m c => if h c > m then h c else m) m) with heq | ⟨l, hl, c, hc, hce⟩
    · rw [heq]
      rcases runMax_attained h l0 m with h0 | ⟨c, hc, hce⟩
      · left; exact h0
      · right; exact ⟨l0, List.mem_cons_self _ _, c, hc, hce⟩
    · right
      exact ⟨l, List.mem_cons_of_mem _ hl, c, hc, hce⟩

/-- The widths over a list of stacks: bounds, attainment, leastness and the
empty case. -/
theorem nested_spec (pf : pathFormat) (ls : List (List Call)) :
    (∀ l ∈ ls, ∀ c ∈ l,
      goLen (formatCall pf c) ≤ (ls.foldl (fun acc l => l.foldl (calcCall pf) acc) (0, 0)).1 ∧
      goLen c.Func.DirName ≤ (ls.foldl (fun acc l => l.foldl (calcCall pf) acc) (0, 0)).2) ∧
    ((∃ l ∈ ls, l ≠ []) →
      (∃ l ∈ ls, ∃ c ∈ l,
        goLen (formatCall pf c) = (ls.foldl (fun acc l => l.foldl (calcCall pf) acc) (0, 0)).1) ∧
      (∃ l ∈ ls, ∃ c ∈ l,
        goLen c.Func.DirName = (ls.foldl (fun acc l => l.foldl (calcCall pf) acc) (0, 0)).2)) ∧
    (∀ w₁ w₂ : Nat,
      (∀ l ∈ ls, ∀ c ∈ l, goLen (formatCall pf c) ≤ w₁ ∧ goLen c.Func.DirName ≤ w₂) →
      (ls.foldl (fun acc l => l.foldl (calcCall pf) acc) (0, 0)).1 ≤ w₁ ∧
      (ls.foldl (fun acc l => l.foldl (calcCall pf) acc) (0, 0)).2 ≤ w₂) ∧
    ((∀ l ∈ ls, l = []) → ls.foldl (fun acc l => l.foldl (calcCall pf) acc) (0, 0) = (0, 0)) := by
  rw [nested_foldl]
  refine ⟨fun l hl c hc =>
    ⟨nestedMax_bound (fun c => goLen (formatCall pf c)) ls 0 l hl c hc,
      nestedMax_bound (fun c => goLen c.Func.DirName) ls 0 l hl c hc⟩, ?_, ?_, ?_⟩
  · rintro ⟨l, hl, hne⟩
    obtain ⟨c, hc⟩ := List.exists_mem_of_ne_nil l hne
    constructor
    · rcases nestedMax_attained (fun c => goLen (formatCall pf c)) ls 0 with h0 | h1
      · refine ⟨l, hl, c, hc, ?_⟩
        have := nestedMax_bound (fun c => goLen (formatCall pf c)) ls 0 l hl c hc
        simp only at h0 this ⊢
        omega
      · exact h1
    · rcases nestedMax_attained (fun c => goLen c.Func.DirName) ls 0 with h0 | h1
      · refine ⟨l, hl, c, hc, ?_⟩
        have := nestedMax_bound (fun c => goLen c.Func.DirName) ls 0 l hl c hc
        simp only at h0 this ⊢
        omega
      · exact h1
  · intro w₁ w₂ hw
    constructor
    · rcases nestedMax_attained (fun c => goLen (formatCall pf c)) ls 0 with h0 | ⟨l, hl, c, hc, he⟩
      · simp only at h0 ⊢
        omega
      · have := (hw l hl c hc).1
        simp only at he ⊢
        omega
    · rcases nestedMax_attained (fun c => goLen c.Func.DirName) ls 0 with h0 | ⟨l, hl, c, hc, he⟩
      · simp only at h0 ⊢
        omega
      · have := (hw l hl c hc).2
        simp only at he ⊢
        omega
  · intro hall
    have key : ∀ (h : Call → Nat),
        ls.foldl (fun m l => l.foldl (fun m c => if h c > m then h c else m) m) 0 = 0 := by
      intro h
      rcases nestedMax_attained h ls 0 with h0 | ⟨l, hl, c, hc, _⟩
      · exact h0
      · rw [hall l hl] at hc
        simp at hc
    simp only [key]

/-- The same facts for any collection of entries, each with its stack of calls. -/
theorem entries_spec {α : Type} (calls : α → List Call) (pf : pathFormat) (es : List α) :
    (∀ e ∈ es, ∀ c ∈ calls e,
      goLen (formatCall pf c) ≤ (es.foldl (fun acc e => (calls e).foldl (calcCall pf) acc) (0, 0)).1 ∧
      goLen c.Func.DirName ≤ (es.foldl (fun acc e => (calls e).foldl (calcCall pf) acc) (0, 0)).2) ∧
    ((∃ e ∈ es, calls e ≠ []) →
      (∃ e ∈ es, ∃ c ∈ calls e,
        goLen (formatCall pf c) =
          (es.foldl (fun acc e => (calls e).foldl (calcCall pf) acc) (0, 0)).1) ∧
      (∃ e ∈ es, ∃ c ∈ calls e,
        goLen c.Func.DirName =
          (es.foldl (fun acc e => (calls e).foldl (calcCall pf) acc) (0, 0)).2)) ∧
    (∀ w₁ w₂ : Nat,
      (∀ e ∈ es, ∀ c ∈ calls e, goLen (formatCall pf c) ≤ w₁ ∧ goLen c.Func.DirName ≤ w₂) →
      (es.foldl (fun acc e => (calls e).foldl (calcCall pf) acc) (0, 0)).1 ≤ w₁ ∧
      (es.foldl (fun acc e => (calls e).foldl (calcCall pf) acc) (0, 0)).2 ≤ w₂) ∧
    ((∀ e ∈ es, calls e = []) →
      es.foldl (fun acc e => (calls e).foldl (calcCall pf) acc) (0, 0) = (0, 0)) := by
  have hmap : es.foldl (fun acc e => (calls e).foldl (calcCall pf) acc) (0, 0) =
      (es.map calls).foldl (fun acc l => l.foldl (calcCall pf) acc) (0, 0) := by
    rw [List.foldl_map]
  rw [hmap]
  obtain ⟨h1, h2, h3, h4⟩ := nested_spec pf (es.map calls)
  refine ⟨?_, ?_, ?_, ?_⟩
  · intro e he c hc
    exact h1 (calls e) (List.mem_map_of_mem _ he) c hc
  · rintro ⟨e, he, hne⟩
    obtain ⟨⟨l, hl, c, hc, hce⟩, ⟨l', hl', c', hc', hce'⟩⟩ :=
      h2 ⟨calls e, List.mem_map_of_mem _ he, hne⟩
    obtain ⟨e1, he1, rfl⟩ := List.mem_map.1 hl
    obtain ⟨e2, he2, rfl⟩ := List.mem_map.1 hl'
    exact ⟨⟨e1, he1, c, hc, hce⟩, ⟨e2, he2, c', hc', hce'⟩⟩
  · intro w₁ w₂ hw
    apply h3
    intro l hl c hc
    obtain ⟨e, he, rfl⟩ := List.mem_map.1 hl
    exact hw e he c hc
  · intro hall
    apply h4
    intro l hl
    obtain ⟨e, he, rfl⟩ := List.mem_map.1 hl
    exact hall e he

/-- C4: the pair `(srcLen, pkgLen)` of `calcBucketsLengths` (over buckets) and of
`calcGoroutinesLengths` (over goroutines) is the maximum, over every call of
every entry's stack, of the length of `formatCall` and of the length of the
directory name: every call fits, each width is attained by some call when
there is a call, no smaller pair fits, and the pair is `(0, 0)` when there is
no entry or no call. -/
theorem calcLengths_max (a : Aggregated) (s : Snapshot) (pf : pathFormat) :
    ((∀ e ∈ a.Buckets, ∀ c ∈ e.Signature.Stack.Calls,
        goLen (formatCall pf c) ≤ (calcBucketsLengths a pf).1 ∧
        goLen c.Func.DirName ≤ (calcBucketsLengths a pf).2) ∧
      ((∃ e ∈ a.Buckets, e.Signature.Stack.Calls ≠ []) →
        (∃ e ∈ a.Buckets, ∃ c ∈ e.Signature.Stack.Calls,
          goLen (formatCall pf c) = (calcBucketsLengths a pf).1) ∧
        (∃ e ∈ a.Buckets, ∃ c ∈ e.Signature.Stack.Calls,
          goLen c.Func.DirName = (calcBucketsLengths a pf).2)) ∧
      (∀ w₁ w₂ : Nat,
        (∀ e ∈ a.Buckets, ∀ c ∈ e.Signature.Stack.Calls,
          goLen (formatCall pf c) ≤ w₁ ∧ goLen c.Func.DirName ≤ w₂) →
        (calcBucketsLengths a pf).1 ≤ w₁ ∧ (calcBucketsLengths a pf).2 ≤ w₂) ∧
      ((∀ e ∈ a.Buckets, e.Signature.Stack.Calls = []) → calcBucketsLengths a pf = (0, 0))) ∧
    ((∀ e ∈ s.Goroutines, ∀ c ∈ e.Signature.Stack.Calls,
        goLen (formatCall pf c) ≤ (calcGoroutinesLengths s pf).1 ∧
        goLen c.Func.DirName ≤ (calcGoroutinesLengths s pf).2) ∧
      ((∃ e ∈ s.Goroutines, e.Signature.Stack.Calls ≠ []) →
        (∃ e ∈ s.Goroutines, ∃ c ∈ e.Signature.Stack.Calls,
          goLen (formatCall pf c) = (calcGoroutinesLengths s pf).1) ∧
        (∃ e ∈ s.Goroutines, ∃ c ∈ e.Signature.Stack.Calls,
          goLen c.Func.DirName = (calcGoroutinesLengths s pf).2)) ∧
      (∀ w₁ w₂ : Nat,
        (∀ e ∈ s.Goroutines, ∀ c ∈ e.Signature.Stack.Calls,
          goLen (formatCall pf c) ≤ w₁ ∧ goLen c.Func.DirName ≤ w₂) →
        (calcGoroutinesLengths s pf).1 ≤ w₁ ∧ (calcGoroutinesLengths s pf).2 ≤ w₂) ∧
      ((∀ e ∈ s.Goroutines, e.Signature.Stack.Calls = []) →
        calcGoroutinesLengths s pf = (0, 0))) :=
  ⟨entries_spec (fun e : Bucket => e.Signature.Stack.Calls) pf a.Buckets,
    entries_spec (fun e : Goroutine => e.Signature.Stack.Calls) pf s.Goroutines⟩


/-! ## Strings: auxiliary facts -/

theorem join_foldl (l : List String) (a : String) :
    l.foldl (fun r s => r ++ s) a = a ++ String.join l := by
  induction l generalizing a with
  | nil => simp [String.join]
  | cons x xs ih =>
    simp only [String.join, List.foldl_cons] at ih ⊢
    rw [ih (a ++ x), ih ("" ++ x)]
    simp [String.append_assoc]

theorem join_cons (x : String) (xs : List String) :
    String.join (x :: xs) = x ++ String.join xs := by
  rw [String.join, List.foldl_cons, join_foldl]
  simp

theorem join_append (xs ys : List String) :
    String.join (xs ++ ys) = String.join xs ++ String.join ys := by
  induction xs with
  | nil => simp [String.join]
  | cons x xs ih => simp [join_cons, ih, String.append_assoc]

theorem stringsJoin_foldl (sep : String) (rest : List String) (e : String) :
    rest.foldl (fun acc x => acc ++ sep ++ x) e ++ sep =
      e ++ sep ++ String.join (rest.map (fun x => x ++ sep)) := by
  induction rest generalizing e with
  | nil => simp [String.join]
  | cons x xs ih =>
    rw [List.foldl_cons, ih, List.map_cons, join_cons]
    simp [String.append_assoc]

theorem stringsJoin_sep (sep : String) (l : List String) (hl : l ≠ []) :
    stringsJoin l sep ++ sep = String.join (l.map (fun x => x ++ sep)) := by
  cases l with
  | nil => exact absurd rfl hl
  | cons e rest =>
    rw [stringsJoin, stringsJoin_foldl, List.map_cons, join_cons]

theorem append_ne_empty_right (s t : String) (ht : t ≠ "") : s ++ t ≠ "" := by
  intro h
  have h1 : (s ++ t).length = 0 := by rw [h]; rfl
  have h2 : t.length = 0 := by
    rw [String.length_append] at h1
    omega
  apply ht
  apply String.ext
  exact List.length_eq_zero.1 h2


theorem createdByString_ne_empty (pf : pathFormat) (sig : Signature) (c0 : Call)
    (rest : List Call) (h : sig.CreatedBy.Calls = c0 :: rest) :
    createdByString pf sig ≠ "" := by
  simp only [createdByString, h]
  intro h0
  have h1 := congrArg String.length h0
  simp only [String.length_append] at h1
  have h2 : " @ ".length = 3 := rfl
  have h3 : "".length = 0 := rfl
  omega

theorem headerExtra_eq (p : Palette) (sig : Signature) (pf : pathFormat) :
    headerExtra p sig pf =
      (if sig.SleepString ≠ "" then " [" ++ sig.SleepString ++ "]" else "") ++
      (if sig.Locked = true then " [locked]" else "") ++
      (match sig.CreatedBy.Calls with
        | [] => ""
        | c :: _ =>
          p.CreatedBy ++ " [Created by " ++ c.Func.DirName ++ "." ++ c.Func.Name ++ " @ " ++
            formatCall pf c ++ "]") := by
  unfold headerExtra
  cases hc : sig.CreatedBy.Calls with
  | nil =>
    have : createdByString pf sig = "" := by simp [createdByString, hc]
    simp only [this]
    by_cases h1 : sig.SleepString = "" <;> by_cases h2 : sig.Locked = true <;> simp [h1, h2]
  | cons c rest =>
    have hne := createdByString_ne_empty pf sig c rest hc
    have hcs : createdByString pf sig =
        c.Func.DirName ++ "." ++ c.Func.Name ++ " @ " ++ formatCall pf c := by
      simp [createdByString, hc]
    simp only [if_pos hne]
    simp only [hcs]
    by_cases h1 : sig.SleepString = "" <;> by_cases h2 : sig.Locked = true <;>
      simp [h1, h2, String.append_assoc]

theorem writeBuckets_listWriter (p : Palette) (pf : pathFormat) (sl pl : Int) (multi : Bool)
    (bs : List Bucket) (out : List String) :
    writeBuckets p pf listWriter sl pl multi bs out =
      out ++ bs.flatMap (fun e => [p.BucketHeader e pf multi, p.StackLines e.Signature sl pl pf]) := by
  unfold writeBuckets
  induction bs generalizing out with
  | nil => simp
  | cons b bs ih =>
    rw [List.foldl_cons, ih]
    simp [listWriter]

theorem writeGoroutines_listWriter (p : Palette) (pf : pathFormat) (sl pl : Int) (multi : Bool)
    (gs : List Goroutine) (out : List String) :
    writeGoroutines p pf listWriter sl pl multi gs out =
      out ++
        gs.flatMap (fun e => [p.GoroutineHeader e pf multi, p.StackLines e.Signature sl pl pf]) := by
  unfold writeGoroutines
  induction gs generalizing out with
  | nil => simp
  | cons g gs ih =>
    rw [List.foldl_cons, ih]
    simp [listWriter]

/-! ## Headers: properties -/

/-- C5: `routineColor` returns `RoutineFirst` when `first` and `multiple` are
both set and `Routine` otherwise (so, the two colours being distinct, it
returns `RoutineFirst` if and only if both are set).  `Print` passes as
`multiple` whether the render has more than one entry, buckets without a race
and goroutines with one; with exactly one entry the header starts with the
plain colour `Routine` even when the entry is flagged first. -/
theorem routineColor_first_iff (p : Palette) (first multiple : Bool) (a : Ansi) (eng : Engine)
    (s : Snapshot) :
    (p.routineColor first multiple =
      if first = true ∧ multiple = true then p.RoutineFirst else p.Routine) ∧
    (p.RoutineFirst ≠ p.Routine →
      (p.routineColor first multiple = p.RoutineFirst ↔ (first = true ∧ multiple = true))) ∧
    (eng.IsRace (removeSelf s) = false →
      (Print a eng listWriter [] (some s, none)).1 =
        (eng.Aggregate (removeSelf s)).Buckets.flatMap (fun e =>
          [(defaultPalette a).BucketHeader e relPath
              (decide (1 < (eng.Aggregate (removeSelf s)).Buckets.length)),
            (defaultPalette a).StackLines e.Signature
              (calcBucketsLengths (eng.Aggregate (removeSelf s)) relPath).1
              (calcBucketsLengths (eng.Aggregate (removeSelf s)) relPath).2 relPath])) ∧
    (eng.IsRace (removeSelf s) = true →
      (Print a eng listWriter [] (some s, none)).1 =
        (removeSelf s).Goroutines.flatMap (fun e =>
          [(defaultPalette a).GoroutineHeader e relPath
              (decide (1 < (removeSelf s).Goroutines.length)),
            (defaultPalette a).StackLines e.Signature
              (calcGoroutinesLengths (removeSelf s) relPath).1
              (calcGoroutinesLengths (removeSelf s) relPath).2 relPath])) ∧
    (∀ b : Bucket, eng.IsRace (removeSelf s) = false →
      (eng.Aggregate (removeSelf s)).Buckets = [b] →
      (Print a eng listWriter [] (some s, none)).1.head? =
        some ((defaultPalette a).Routine ++ fmtD (b.IDs.length : Int) ++ ": " ++
          b.Signature.State ++ headerExtra (defaultPalette a) b.Signature relPath ++
          (defaultPalette a).EOLReset ++ "\n")) ∧
    (∀ g : Goroutine, eng.IsRace (removeSelf s) = true →
      (removeSelf s).Goroutines = [g] →
      (Print a eng listWriter [] (some s, none)).1.head? =
        some ((defaultPalette a).GoroutineHeader { g with First := false } relPath false) ∧
      (defaultPalette a).routineColor g.First (decide (1 < [g].length)) =
        (defaultPalette a).Routine) := by
  have hb : eng.IsRace (removeSelf s) = false →
      (Print a eng listWriter [] (some s, none)).1 =
        (eng.Aggregate (removeSelf s)).Buckets.flatMap (fun e =>
          [(defaultPalette a).BucketHeader e relPath
              (decide (1 < (eng.Aggregate (removeSelf s)).Buckets.length)),
            (defaultPalette a).StackLines e.Signature
              (calcBucketsLengths (eng.Aggregate (removeSelf s)) relPath).1
              (calcBucketsLengths (eng.Aggregate (removeSelf s)) relPath).2 relPath]) := by
    intro hr
    simp [Print, hr, writeBuckets_listWriter]
  have hg : eng.IsRace (removeSelf s) = true →
      (Print a eng listWriter [] (some s, none)).1 =
        (removeSelf s).Goroutines.flatMap (fun e =>
          [(defaultPalette a).GoroutineHeader e relPath
              (decide (1 < (removeSelf s).Goroutines.length)),
            (defaultPalette a).StackLines e.Signature
              (calcGoroutinesLengths (removeSelf s) relPath).1
              (calcGoroutinesLengths (removeSelf s) relPath).2 relPath]) := by
    intro hr
    simp [Print, hr, writeGoroutines_listWriter]
  refine ⟨?_, ?_, hb, hg, ?_, ?_⟩
  · cases first <;> cases multiple <;> simp [Palette.routineColor]
  · intro hne
    cases first <;> cases multiple <;> simp [Palette.routineColor, hne, Ne.symm hne]
  · intro b hr hbs
    rw [hb hr, hbs]
    simp [Palette.BucketHeader, Palette.routineColor]
  · intro g hr hgs
    rw [hg hr, hgs]
    simp [Palette.GoroutineHeader, Palette.routineColor]

/-- C6: `GoroutineHeader` carries the race annotation (reset, race colour,
" Race ", the kind, " @ 0x", the address) when `RaceAddr` is non-zero, with the
kind "write" when `RaceWrite` is set and "read" otherwise, and then differs
from the header without it; when `RaceAddr` is zero the header is the one built
without the race fields, whatever `RaceWrite` is. -/
theorem goroutineHeader_race (p : Palette) (g : Goroutine) (pf : pathFormat) (m : Bool) :
    (g.RaceAddr ≠ 0 →
      p.GoroutineHeader g pf m =
        p.routineColor g.First m ++ fmtD g.ID ++ ": " ++ g.Signature.State ++
          (headerExtra p g.Signature pf ++
            (p.EOLReset ++ p.Race ++ " Race " ++ (if g.RaceWrite = true then "write" else "read") ++
              " @ 0x" ++ fmtX08 g.RaceAddr)) ++
          p.EOLReset ++ "\n") ∧
    (g.RaceAddr ≠ 0 →
      p.GoroutineHeader g pf m ≠ p.GoroutineHeader { g with RaceAddr := 0 } pf m) ∧
    (g.RaceAddr = 0 →
      p.GoroutineHeader g pf m =
        p.routineColor g.First m ++ fmtD g.ID ++ ": " ++ g.Signature.State ++
          headerExtra p g.Signature pf ++ p.EOLReset ++ "\n") ∧
    (g.RaceAddr = 0 →
      ∀ w : Bool, p.GoroutineHeader { g with RaceWrite := w } pf m = p.GoroutineHeader g pf m) := by
  refine ⟨?_, ?_, ?_, ?_⟩
  · intro h
    simp [Palette.GoroutineHeader, h]
  · intro h hEq
    have hlen := congrArg String.length hEq
    simp only [Palette.GoroutineHeader, if_pos h, ne_eq, not_true_eq_false, if_false,
      String.length_append] at hlen
    have h6 : " Race ".length = 6 := rfl
    omega
  · intro h
    simp [Palette.GoroutineHeader, h]
  · intro h w
    simp [Palette.GoroutineHeader, h]

/-- C8: `BucketHeader` and `GoroutineHeader` return the routine colour, the
count of member IDs (the goroutine ID for a goroutine), ": ", the state, then
in this order the sleep text in brackets when non-empty, " [locked]" when the
lock flag is set, the creator (colour, " [Created by ", directory, ".", name,
" @ ", formatted path, "]") when the `CreatedBy` chain has a first call, the
race annotation (goroutine only), and at last the reset code and a newline. -/
theorem header_format (p : Palette) (b : Bucket) (g : Goroutine) (pf : pathFormat) (m : Bool) :
    p.BucketHeader b pf m =
      p.routineColor b.First m ++ fmtD (b.IDs.length : Int) ++ ": " ++ b.Signature.State ++
        ((if b.Signature.SleepString ≠ "" then " [" ++ b.Signature.SleepString ++ "]" else "") ++
          (if b.Signature.Locked = true then " [locked]" else "") ++
          (match b.Signature.CreatedBy.Calls with
            | [] => ""
            | c :: _ =>
              p.CreatedBy ++ " [Created by " ++ c.Func.DirName ++ "." ++ c.Func.Name ++ " @ " ++
                formatCall pf c ++ "]")) ++
        p.EOLReset ++ "\n" ∧
    p.GoroutineHeader g pf m =
      p.routineColor g.First m ++ fmtD g.ID ++ ": " ++ g.Signature.State ++
        ((if g.Signature.SleepString ≠ "" then " [" ++ g.Signature.SleepString ++ "]" else "") ++
          (if g.Signature.Locked = true then " [locked]" else "") ++
          (match g.Signature.CreatedBy.Calls with
            | [] => ""
            | c :: _ =>
              p.CreatedBy ++ " [Created by " ++ c.Func.DirName ++ "." ++ c.Func.Name ++ " @ " ++
                formatCall pf c ++ "]") ++
          (if g.RaceAddr ≠ 0 then
            p.EOLReset ++ p.Race ++ " Race " ++ (if g.RaceWrite = true then "write" else "read") ++
              " @ 0x" ++ fmtX08 g.RaceAddr
          else "")) ++
        p.EOLReset ++ "\n" := by
  constructor
  · simp only [Palette.BucketHeader, headerExtra_eq]
  · simp only [Palette.GoroutineHeader, headerExtra_eq]
    by_cases h : g.RaceAddr = 0 <;> simp [h]

/-- C9: `StackLines` returns the call lines of the stack, each made by
`callLine` with the same widths and mode, in stack order and joined by a
newline, then the line "    (...)" exactly when the stack is elided, then one
newline: every line, the elision line included, is followed by one newline,
and an empty stack that is not elided gives a lone newline. -/
theorem stackLines_format (p : Palette) (sig : Signature) (srcLen pkgLen : Int)
    (pf : pathFormat) :
    p.StackLines sig srcLen pkgLen pf =
      stringsJoin
        (sig.Stack.Calls.map (fun c => p.callLine c srcLen pkgLen pf) ++
          (if sig.Stack.Elided = true then ["    (...)"] else [])) "\n" ++ "\n" ∧
    (sig.Stack.Elided = true →
      p.StackLines sig srcLen pkgLen pf =
        String.join (sig.Stack.Calls.map (fun c => p.callLine c srcLen pkgLen pf ++ "\n")) ++
          "    (...)" ++ "\n") ∧
    (sig.Stack.Elided = false → sig.Stack.Calls ≠ [] →
      p.StackLines sig srcLen pkgLen pf =
        String.join (sig.Stack.Calls.map (fun c => p.callLine c srcLen pkgLen pf ++ "\n"))) ∧
    (sig.Stack.Elided = false → sig.Stack.Calls = [] →
      p.StackLines sig srcLen pkgLen pf = "\n") := by
  refine ⟨?_, ?_, ?_, ?_⟩
  · by_cases h : sig.Stack.Elided = true <;> simp [Palette.StackLines, h]
  · intro h
    simp only [Palette.StackLines, h, if_true]
    rw [stringsJoin_sep _ _ (by simp), List.map_append, join_append, List.map_map]
    simp [join_cons, String.join, String.append_assoc, Function.comp_def]
  · intro h hne
    simp only [Palette.StackLines, h]
    rw [if_neg (by simp), stringsJoin_sep _ _ (by simpa using hne), List.map_map]
    simp [Function.comp_def]
  · intro h hnil
    simp [Palette.StackLines, h, hnil, stringsJoin]

/-! ## Call line: properties -/

/-- C7, the claim as worded fails: with widths 10 and 6 the code puts the
blanks after the directory name and after the path, not before them; and a
width over 1000000 is refused by `fmt`, which prints `%!(BADWIDTH)` and no
padding. -/
theorem callLine_not_left_padded :
    samplePalette.callLine sampleCall 10 6 relPath = "    Pmain   Sa.go:12    MmainA(1, 2)R" ∧
    callLineLeftPadded samplePalette sampleCall 10 6 relPath =
      "    P  main S   a.go:12 MmainA(1, 2)R" ∧
    samplePalette.callLine sampleCall 10 6 relPath ≠
      callLineLeftPadded samplePalette sampleCall 10 6 relPath ∧
    samplePalette.callLine sampleCall 10 1000001 relPath =
      "    P%!(BADWIDTH)main Sa.go:12    MmainA(1, 2)R" := by
  refine ⟨by decide, by decide, by decide, by decide⟩

/-- C7, amended: for widths from 0 to 1000000 `callLine` returns four blanks,
the package colour, the directory name followed by blanks up to `pkgLen` runes,
a blank, the source colour, `formatCall` followed by blanks up to `srcLen`
runes, a blank, the function colour, the function name, the argument colour,
the rendered arguments in parentheses and the reset code, with which the line
ends. -/
theorem callLine_format (p : Palette) (line : Call) (srcLen pkgLen : Int) (pf : pathFormat)
    (hs : 0 ≤ srcLen ∧ srcLen ≤ 1000000) (hp : 0 ≤ pkgLen ∧ pkgLen ≤ 1000000) :
    p.callLine line srcLen pkgLen pf =
      "    " ++ p.Package ++
        (line.Func.DirName ++ spaces (pkgLen.toNat - runeCount line.Func.DirName)) ++ " " ++
        p.SrcFile ++
        (formatCall pf line ++ spaces (srcLen.toNat - runeCount (formatCall pf line))) ++ " " ++
        p.functionColor line ++ line.Func.Name ++
        p.Arguments ++ "(" ++ line.Args.String ++ ")" ++ p.EOLReset ∧
    ∃ body : String, p.callLine line srcLen pkgLen pf = body ++ p.EOLReset := by
  have h1 : tooLarge srcLen = false := by
    simp only [tooLarge, Bool.or_eq_false_iff, decide_eq_false_iff_not]
    omega
  have h2 : tooLarge pkgLen = false := by
    simp only [tooLarge, Bool.or_eq_false_iff, decide_eq_false_iff_not]
    omega
  have h3 : srcLen.natAbs = srcLen.toNat := by omega
  have h4 : pkgLen.natAbs = pkgLen.toNat := by omega
  refine ⟨?_, ⟨_, rfl⟩⟩
  simp [Palette.callLine, fmtLeftS, h1, h2, h3, h4]

/-- C7, amended, at a concrete input: widths 10 and 6 for `sampleCall`. -/
theorem callLine_format_witness :
    samplePalette.callLine sampleCall 10 6 relPath =
      "    " ++ samplePalette.Package ++
        (sampleCall.Func.DirName ++
          spaces ((6 : Int).toNat - runeCount sampleCall.Func.DirName)) ++ " " ++
        samplePalette.SrcFile ++
        (formatCall relPath sampleCall ++
          spaces ((10 : Int).toNat - runeCount (formatCall relPath sampleCall))) ++ " " ++
        samplePalette.functionColor sampleCall ++ sampleCall.Func.Name ++
        samplePalette.Arguments ++ "(" ++ sampleCall.Args.String ++ ")" ++
        samplePalette.EOLReset ∧
    ∃ body : String, samplePalette.callLine sampleCall 10 6 relPath =
      body ++ samplePalette.EOLReset :=
  callLine_format samplePalette sampleCall 10 6 relPath (by decide) (by decide)

/-! ## Self-exclusion: properties -/

theorem removeSelfCalls_foldl (path : String) (calls acc : List Call) :
    calls.foldl
        (fun newCalls call =>
          if call.RemoteSrcPath ≠ path then newCalls ++ [call] else newCalls)
        acc =
      acc ++ calls.filter (fun c => decide (c.RemoteSrcPath ≠ path)) := by
  induction calls generalizing acc with
  | nil => simp
  | cons c cs ih =>
    rw [List.foldl_cons, ih]
    by_cases h : c.RemoteSrcPath = path <;> simp [h, List.filter_cons]

theorem removeSelfCalls_eq_filter (path : String) (calls : List Call) :
    removeSelfCalls path calls = calls.filter (fun c => decide (c.RemoteSrcPath ≠ path)) := by
  rw [removeSelfCalls, removeSelfCalls_foldl]
  simp

theorem filter_eq_dropWhile (path : String) (calls : List Call)
    (h : ∀ c ∈ calls.dropWhile (fun c => c.RemoteSrcPath == path), c.RemoteSrcPath ≠ path) :
    calls.filter (fun c => decide (c.RemoteSrcPath ≠ path)) =
      calls.dropWhile (fun c => c.RemoteSrcPath == path) := by
  induction calls with
  | nil => simp
  | cons c cs ih =>
    by_cases hc : c.RemoteSrcPath = path
    · have hd : (c :: cs).dropWhile (fun c => c.RemoteSrcPath == path) =
          cs.dropWhile (fun c => c.RemoteSrcPath == path) := by
        simp [List.dropWhile_cons, hc]
      rw [hd] at h ⊢
      rw [← ih h]
      simp [List.filter_cons, hc]
    · have hd : (c :: cs).dropWhile (fun c => c.RemoteSrcPath == path) = c :: cs := by
        simp [List.dropWhile_cons, hc]
      rw [hd] at h ⊢
      exact List.filter_eq_self.2 (fun x hx => by simpa using h x hx)

/-- C10, the claim as worded fails: on `sampleSnapshot` the third frame, which
has the first frame's path and follows a frame that has not, is removed by
the code and kept by the longest-prefix reading. -/
theorem removeSelf_not_leading_drop :
    (removeSelf sampleSnapshot).Goroutines.map (fun g => g.Signature.Stack.Calls) =
      [[sampleCall]] ∧
    dropLeadingSelf sampleGoroutine.Signature.Stack.Calls = [sampleCall, selfCall "Print" 266] ∧
    (removeSelf sampleSnapshot).Goroutines.map (fun g => g.Signature.Stack.Calls) ≠
      [dropLeadingSelf sampleGoroutine.Signature.Stack.Calls] := by
  refine ⟨by decide, by decide, by decide⟩

/-- C10, amended: when the first goroutine has a non-empty stack, the
self-exclusion step replaces that stack by its frames, in order, whose
`RemoteSrcPath` differs from the first frame's, leading or not, and changes
nothing else; no frame kept has that path; and the result is the stack without
its longest leading run of such frames whenever no later frame has that path. -/
theorem removeSelf_drops_every_match (s : Snapshot) (g : Goroutine) (rest : List Goroutine)
    (c0 : Call) (cs : List Call) (hg : s.Goroutines = g :: rest)
    (hc : g.Signature.Stack.Calls = c0 :: cs) :
    (removeSelf s).Goroutines =
      { g with
        Signature :=
          { g.Signature with
            Stack :=
              { g.Signature.Stack with
                Calls :=
                  (c0 :: cs).filter (fun c => decide (c.RemoteSrcPath ≠ c0.RemoteSrcPath)) } } }
        :: rest ∧
    (∀ c ∈ (c0 :: cs).filter (fun c => decide (c.RemoteSrcPath ≠ c0.RemoteSrcPath)),
      c.RemoteSrcPath ≠ c0.RemoteSrcPath) ∧
    ((∀ c ∈ dropLeadingSelf (c0 :: cs), c.RemoteSrcPath ≠ c0.RemoteSrcPath) →
      (c0 :: cs).filter (fun c => decide (c.RemoteSrcPath ≠ c0.RemoteSrcPath)) =
        dropLeadingSelf (c0 :: cs)) := by
  refine ⟨?_, ?_, ?_⟩
  · simp only [removeSelf, hg, hc, removeSelfCalls_eq_filter]
  · intro c hc'
    simpa using (List.mem_filter.1 hc').2
  · intro h
    exact filter_eq_dropWhile c0.RemoteSrcPath (c0 :: cs) h

/-- C10, amended, at a concrete input: `sampleSnapshot`. -/
theorem removeSelf_drops_every_match_witness :
    (removeSelf sampleSnapshot).Goroutines =
      [{ sampleGoroutine with Signature :=
          { sampleGoroutine.Signature with Stack :=
              { sampleGoroutine.Signature.Stack with Calls := [sampleCall] } } }] :=
  (removeSelf_drops_every_match sampleSnapshot sampleGoroutine [] (selfCall "getStack" 252)
    [sampleCall, selfCall "Print" 266] rfl rfl).1

/-! ## Race address: properties -/

theorem hexDigitValue_digitChar (d : Nat) (hd : d < 16) :
    hexDigitValue (Nat.digitChar d) = some d := by
  interval_cases d <;> decide

theorem hexValue_toDigitsCore (fuel n : Nat) (ds : List Char) (hn : n < fuel) :
    (Nat.toDigitsCore 16 fuel n ds).foldl hexStep (some 0) = ds.foldl hexStep (some n) := by
  induction fuel generalizing n ds with
  | zero => omega
  | succ fuel ih =>
    unfold Nat.toDigitsCore
    have hd := hexDigitValue_digitChar (n % 16) (Nat.mod_lt _ (by decide))
    by_cases h0 : n / 16 = 0
    · simp only [h0, if_true, List.foldl_cons]
      have hs : hexStep (some 0) (Nat.digitChar (n % 16)) = some n := by
        simp only [hexStep, hd]
        congr 1
        omega
      rw [hs]
    · simp only [h0, if_false]
      rw [ih (n / 16) _ (by omega), List.foldl_cons]
      have hs : hexStep (some (n / 16)) (Nat.digitChar (n % 16)) = some n := by
        simp only [hexStep, hd]
        congr 1
        exact Nat.div_add_mod n 16
      rw [hs]

theorem hexValue_zeros (k : Nat) (ds : List Char) :
    (List.replicate k '0' ++ ds).foldl hexStep (some 0) = ds.foldl hexStep (some 0) := by
  induction k with
  | zero => simp
  | succ k ih =>
    rw [List.replicate_succ, List.cons_append, List.foldl_cons]
    have : hexStep (some 0) '0' = some 0 := by decide
    rw [this, ih]

theorem hexValue_fmtX08 (n : Nat) : hexValue (fmtX08 n) = some n := by
  unfold hexValue fmtX08
  simp only []
  rw [hexValue_zeros, Nat.toDigits, hexValue_toDigitsCore _ _ _ (Nat.lt_succ_self n)]
  simp

theorem toDigitsCore_length_ge (fuel e n : Nat) (ds : List Char) (he : 16 ^ e ≤ n)
    (hn : n < fuel) : e + 1 + ds.length ≤ (Nat.toDigitsCore 16 fuel n ds).length := by
  induction fuel generalizing e n ds with
  | zero => omega
  | succ fuel ih =>
    unfold Nat.toDigitsCore
    by_cases h0 : n / 16 = 0
    · simp only [h0, if_true, List.length_cons]
      have hlt : n < 16 := by omega
      cases e with
      | zero => omega
      | succ e =>
        have : 16 ≤ 16 ^ (e + 1) := by
          calc 16 = 16 ^ 1 := by norm_num
            _ ≤ 16 ^ (e + 1) := Nat.pow_le_pow_right (by norm_num) (by omega)
        omega
    · simp only [h0, if_false]
      cases e with
      | zero =>
        have := ih 0 (n / 16) (Nat.digitChar (n % 16) :: ds) (by simp; omega) (by omega)
        simp only [List.length_cons] at this
        omega
      | succ e =>
        have hdiv : 16 ^ e ≤ n / 16 := by
          rw [Nat.le_div_iff_mul_le (by norm_num)]
          rw [pow_succ] at he
          exact he
        have := ih e (n / 16) (Nat.digitChar (n % 16) :: ds) hdiv (by omega)
        simp only [List.length_cons] at this
        omega

theorem fmtX08_length (n : Nat) :
    (fmtX08 n).length = max 8 (Nat.toDigits 16 n).length := by
  simp only [fmtX08, String.length_mk, List.length_append, List.length_replicate]
  omega

/-- C11, the claim as worded fails: the race address 0xc000012345, which does
not fit in 32 bits, is rendered with ten hexadecimal digits, not eight. -/
theorem raceAddr_ten_digits :
    fmtX08 raceGoroutine.RaceAddr = "c000012345" ∧
    (fmtX08 raceGoroutine.RaceAddr).length ≠ 8 ∧
    samplePalette.GoroutineHeader raceGoroutine relPath false =
      "r7: runningR! Race write @ 0xc000012345R\n" := by
  refine ⟨by decide, by decide, by decide⟩

/-- C11, amended: for a non-zero race address the annotation of
`GoroutineHeader` ends with " @ 0x" and the address in lower-case hexadecimal,
zero-filled on the left to at least eight digits; the digits read back as
`RaceAddr`; there are exactly eight of them when the address is below 2^32,
and more than eight, with no zero added, when it is not. -/
theorem raceAddr_hex (p : Palette) (g : Goroutine) (pf : pathFormat) (m : Bool)
    (h : g.RaceAddr ≠ 0) :
    p.GoroutineHeader g pf m =
      p.routineColor g.First m ++ fmtD g.ID ++ ": " ++ g.Signature.State ++
        headerExtra p g.Signature pf ++ p.EOLReset ++ p.Race ++ " Race " ++
        (if g.RaceWrite = true then "write" else "read") ++ " @ 0x" ++ fmtX08 g.RaceAddr ++
        p.EOLReset ++ "\n" ∧
    hexValue (fmtX08 g.RaceAddr) = some g.RaceAddr ∧
    8 ≤ (fmtX08 g.RaceAddr).length ∧
    (g.RaceAddr < 2 ^ 32 → (fmtX08 g.RaceAddr).length = 8) ∧
    (2 ^ 32 ≤ g.RaceAddr →
      8 < (fmtX08 g.RaceAddr).length ∧ fmtX08 g.RaceAddr = String.mk (Nat.toDigits 16 g.RaceAddr)) := by
  refine ⟨?_, hexValue_fmtX08 _, ?_, ?_, ?_⟩
  · simp [Palette.GoroutineHeader, h, String.append_assoc]
  · rw [fmtX08_length]
    omega
  · intro hlt
    have hle : (Nat.toDigits 16 g.RaceAddr).length ≤ 8 :=
      Nat.toDigitsCore_length 16 (by decide) (g.RaceAddr + 1) g.RaceAddr 8
        (by norm_num at hlt ⊢; omega) (by decide)
    rw [fmtX08_length]
    omega
  · intro hge
    have hlen : 8 + 1 + ([] : List Char).length ≤ (Nat.toDigits 16 g.RaceAddr).length :=
      toDigitsCore_length_ge (g.RaceAddr + 1) 8 g.RaceAddr [] (by norm_num at hge ⊢; omega)
        (Nat.lt_succ_self _)
    simp only [List.length_nil] at hlen
    constructor
    · rw [fmtX08_length]
      omega
    · have hz : 8 - (Nat.toDigits 16 g.RaceAddr).length = 0 := by omega
      simp [fmtX08, hz]

/-- C11, amended, at a concrete input: the race address of `raceGoroutine`. -/
theorem raceAddr_hex_witness :
    hexValue (fmtX08 raceGoroutine.RaceAddr) = some raceGoroutine.RaceAddr ∧
    8 ≤ (fmtX08 raceGoroutine.RaceAddr).length :=
  ⟨(raceAddr_hex samplePalette raceGoroutine relPath false (by decide)).2.1,
    (raceAddr_hex samplePalette raceGoroutine relPath false (by decide)).2.2.1⟩

/-! ## Snapshot renderer: properties -/

theorem writeBuckets_foldl {σ : Type} (p : Palette) (pf : pathFormat) (w : Writer σ)
    (sl pl : Int) (multi : Bool) (bs : List Bucket) (out : σ) :
    writeBuckets p pf w sl pl multi bs out =
      (bs.flatMap (fun e => [p.BucketHeader e pf multi, p.StackLines e.Signature sl pl pf])).foldl
        (fun st x => (w.WriteString st x).1) out := by
  unfold writeBuckets
  induction bs generalizing out with
  | nil => simp
  | cons b bs ih =>
    rw [List.foldl_cons, ih]
    simp

theorem writeGoroutines_foldl {σ : Type} (p : Palette) (pf : pathFormat) (w : Writer σ)
    (sl pl : Int) (multi : Bool) (gs : List Goroutine) (out : σ) :
    writeGoroutines p pf w sl pl multi gs out =
      (gs.flatMap
          (fun e => [p.GoroutineHeader e pf multi, p.StackLines e.Signature sl pl pf])).foldl
        (fun st x => (w.WriteString st x).1) out := by
  unfold writeGoroutines
  induction gs generalizing out with
  | nil => simp
  | cons g gs ih =>
    rw [List.foldl_cons, ih]
    simp

theorem join_flatMap_pair {α : Type} (f g : α → String) (l : List α) :
    String.join (l.flatMap (fun e => [f e, g e])) = String.join (l.map (fun e => f e ++ g e)) := by
  induction l with
  | nil => simp
  | cons x xs ih =>
    simp only [List.flatMap_cons, List.map_cons, join_append, join_cons, ih]
    simp [String.join, String.append_assoc]

theorem Print_snd {σ : Type} (a : Ansi) (eng : Engine) (w : Writer σ) (target : σ)
    (s : Option Snapshot) (err : Option GoError) :
    (Print a eng w target (s, err)).2 =
      if err ≠ none ∧ err ≠ some GoError.EOF then err
      else if s = none then some (GoError.New "unable to get tb") else none := by
  unfold Print
  by_cases he : err ≠ none ∧ err ≠ some GoError.EOF
  · simp only [if_pos he]
  · simp only [if_neg he]
    cases s with
    | none => simp
    | some s =>
      simp only [reduceCtorEq, if_false]
      split <;> rfl

/-- C12: with the engine's result as a pair of a snapshot or nil and an error or
nil, `Print` returns the parse error itself when it is present and is not
`io.EOF`; otherwise it returns the error "unable to get tb", which is no parse
error, when the snapshot is nil (also after `io.EOF`); otherwise it returns
nil.  So it returns an error exactly in the first two cases. -/
theorem Print_error_iff {σ : Type} (a : Ansi) (eng : Engine) (w : Writer σ) (target : σ)
    (s : Option Snapshot) (err : Option GoError) :
    (err ≠ none ∧ err ≠ some GoError.EOF → (Print a eng w target (s, err)).2 = err) ∧
    ((err = none ∨ err = some GoError.EOF) → s = none →
      (Print a eng w target (s, err)).2 = some (GoError.New "unable to get tb")) ∧
    ((err = none ∨ err = some GoError.EOF) → s ≠ none →
      (Print a eng w target (s, err)).2 = none) ∧
    ((Print a eng w target (s, err)).2 ≠ none ↔
      ((err ≠ none ∧ err ≠ some GoError.EOF) ∨ s = none)) ∧
    GoError.New "unable to get tb" ≠ GoError.EOF ∧
    (∀ code : Nat, GoError.New "unable to get tb" ≠ GoError.engine code) := by
  rw [Print_snd]
  refine ⟨?_, ?_, ?_, ?_, by decide, fun code => by simp⟩
  · intro h
    rw [if_pos h]
  · intro h hs
    have : ¬ (err ≠ none ∧ err ≠ some GoError.EOF) := by
      rcases h with h | h <;> simp [h]
    rw [if_neg this, if_pos hs]
  · intro h hs
    have : ¬ (err ≠ none ∧ err ≠ some GoError.EOF) := by
      rcases h with h | h <;> simp [h]
    rw [if_neg this, if_neg hs]
  · by_cases he : err ≠ none ∧ err ≠ some GoError.EOF
    · rw [if_pos he]
      exact ⟨fun _ => Or.inl he, fun _ => he.1⟩
    · by_cases hs : s = none
      · simp [if_neg he, hs]
      · simp [if_neg he, hs, he]

theorem Print_fst_some {σ : Type} (a : Ansi) (eng : Engine) (w : Writer σ) (target : σ)
    (s : Snapshot) (err : Option GoError) (he : err = none ∨ err = some GoError.EOF) :
    (Print a eng w target (some s, err)).1 =
      (if eng.IsRace (removeSelf s) = true then
          (removeSelf s).Goroutines.flatMap (fun e =>
            [(defaultPalette a).GoroutineHeader e relPath
                (decide (1 < (removeSelf s).Goroutines.length)),
              (defaultPalette a).StackLines e.Signature
                (calcGoroutinesLengths (removeSelf s) relPath).1
                (calcGoroutinesLengths (removeSelf s) relPath).2 relPath])
        else
          (eng.Aggregate (removeSelf s)).Buckets.flatMap (fun e =>
            [(defaultPalette a).BucketHeader e relPath
                (decide (1 < (eng.Aggregate (removeSelf s)).Buckets.length)),
              (defaultPalette a).StackLines e.Signature
                (calcBucketsLengths (eng.Aggregate (removeSelf s)) relPath).1
                (calcBucketsLengths (eng.Aggregate (removeSelf s)) relPath).2 relPath])).foldl
        (fun st x => (w.WriteString st x).1) target := by
  have hne : ¬ (err ≠ none ∧ err ≠ some GoError.EOF) := by
    rcases he with h | h <;> simp [h]
  unfold Print
  simp only [if_neg hne]
  by_cases hr : eng.IsRace (removeSelf s) = true
  · simp [hr, writeGoroutines_foldl]
  · simp [hr, writeBuckets_foldl]

theorem Print_fst_error {σ : Type} (a : Ansi) (eng : Engine) (w : Writer σ) (target : σ)
    (s : Option Snapshot) (err : Option GoError)
    (h : (err ≠ none ∧ err ≠ some GoError.EOF) ∨ s = none) :
    (Print a eng w target (s, err)).1 = target := by
  unfold Print
  by_cases he : err ≠ none ∧ err ≠ some GoError.EOF
  · simp only [if_pos he]
  · rcases h with h | h
    · exact absurd h he
    · simp only [if_neg he, h]

theorem listWriter_foldl (l out : List String) :
    l.foldl (fun st x => (listWriter.WriteString st x).1) out = out ++ l := by
  induction l generalizing out with
  | nil => simp
  | cons x xs ih =>
    rw [List.foldl_cons, ih]
    simp [listWriter]

theorem failingWriter_foldl (l out : List String) :
    l.foldl (fun st x => (failingWriter.WriteString st x).1) out = out := by
  induction l generalizing out with
  | nil => simp
  | cons x xs ih =>
    rw [List.foldl_cons, ih]
    simp [failingWriter]

/-- C13: when `Print` returns an error the sink is as it was before the call;
when it returns nil the snapshot was parsed and the sink has received, in
order, the header and then the stack block of every entry of the render; the
value returned is the same for every sink, so a write that fails never makes
an error of it: with a sink whose every write fails `Print` still returns what
it returns with the recording sink. -/
theorem Print_all_or_nothing {σ : Type} (a : Ansi) (eng : Engine) (w : Writer σ) (target : σ)
    (s : Option Snapshot) (err : Option GoError) (out : List String) :
    ((Print a eng w target (s, err)).2 ≠ none → (Print a eng w target (s, err)).1 = target) ∧
    ((Print a eng listWriter out (s, err)).2 ≠ none →
      (Print a eng listWriter out (s, err)).1 = out) ∧
    ((Print a eng listWriter out (s, err)).2 = none →
      ∃ s₀, s = some s₀ ∧
        (Print a eng listWriter out (s, err)).1 =
          out ++
            (if eng.IsRace (removeSelf s₀) = true then
              (removeSelf s₀).Goroutines.flatMap (fun e =>
                [(defaultPalette a).GoroutineHeader e relPath
                    (decide (1 < (removeSelf s₀).Goroutines.length)),
                  (defaultPalette a).StackLines e.Signature
                    (calcGoroutinesLengths (removeSelf s₀) relPath).1
                    (calcGoroutinesLengths (removeSelf s₀) relPath).2 relPath])
            else
              (eng.Aggregate (removeSelf s₀)).Buckets.flatMap (fun e =>
                [(defaultPalette a).BucketHeader e relPath
                    (decide (1 < (eng.Aggregate (removeSelf s₀)).Buckets.length)),
                  (defaultPalette a).StackLines e.Signature
                    (calcBucketsLengths (eng.Aggregate (removeSelf s₀)) relPath).1
                    (calcBucketsLengths (eng.Aggregate (removeSelf s₀)) relPath).2 relPath]))) ∧
    (Print a eng w target (s, err)).2 = (Print a eng listWriter out (s, err)).2 ∧
    (Print a eng failingWriter out (s, err)).2 = (Print a eng listWriter out (s, err)).2 ∧
    (Print a eng failingWriter out (s, err)).1 = out := by
  have hiff : ∀ {τ : Type} (w' : Writer τ) (t' : τ),
      (Print a eng w' t' (s, err)).2 ≠ none →
        ((err ≠ none ∧ err ≠ some GoError.EOF) ∨ s = none) := by
    intro τ w' t' h
    rw [Print_snd] at h
    by_cases he : err ≠ none ∧ err ≠ some GoError.EOF
    · exact Or.inl he
    · by_cases hs : s = none
      · exact Or.inr hs
      · simp [if_neg he, hs] at h
  refine ⟨?_, ?_, ?_, ?_, ?_, ?_⟩
  · intro h
    exact Print_fst_error a eng w target s err (hiff w target h)
  · intro h
    exact Print_fst_error a eng listWriter out s err (hiff listWriter out h)
  · intro h
    rw [Print_snd] at h
    by_cases he : err ≠ none ∧ err ≠ some GoError.EOF
    · rw [if_pos he] at h
      exact absurd h he.1
    · cases s with
      | none => simp [if_neg he] at h
      | some s₀ =>
        have he' : err = none ∨ err = some GoError.EOF := by
          by_cases h1 : err = none
          · exact Or.inl h1
          · by_cases h2 : err = some GoError.EOF
            · exact Or.inr h2
            · exact absurd ⟨h1, h2⟩ he
        refine ⟨s₀, rfl, ?_⟩
        rw [Print_fst_some a eng listWriter out s₀ err he', listWriter_foldl]
  · rw [Print_snd, Print_snd]
  · rw [Print_snd, Print_snd]
  · by_cases he : err ≠ none ∧ err ≠ some GoError.EOF
    · exact Print_fst_error a eng failingWriter out s err (Or.inl he)
    · cases s with
      | none => exact Print_fst_error a eng failingWriter out none err (Or.inr rfl)
      | some s₀ =>
        have he' : err = none ∨ err = some GoError.EOF := by
          by_cases h1 : err = none
          · exact Or.inl h1
          · by_cases h2 : err = some GoError.EOF
            · exact Or.inr h2
            · exact absurd ⟨h1, h2⟩ he
        rw [Print_fst_some a eng failingWriter out s₀ err he', failingWriter_foldl]

/-- C14: for a parsed snapshot, taken after the self-exclusion step, `Print`
writes, when the snapshot reports no race, for each bucket of the aggregation
in its order `BucketHeader` and then `StackLines` with the widths of
`calcBucketsLengths` over those buckets, and, when it reports a race, for each
goroutine in its order `GoroutineHeader` and then `StackLines` with the widths
of `calcGoroutinesLengths`; the text is the concatenation of these strings.
The race flag alone selects the mode. -/
theorem Print_output (a : Ansi) (eng : Engine) (s : Snapshot) (err : Option GoError) :
    ((err = none ∨ err = some GoError.EOF) → eng.IsRace (removeSelf s) = false →
      (Print a eng listWriter [] (some s, err)).1 =
        (eng.Aggregate (removeSelf s)).Buckets.flatMap (fun e =>
          [(defaultPalette a).BucketHeader e relPath
              (decide (1 < (eng.Aggregate (removeSelf s)).Buckets.length)),
            (defaultPalette a).StackLines e.Signature
              (calcBucketsLengths (eng.Aggregate (removeSelf s)) relPath).1
              (calcBucketsLengths (eng.Aggregate (removeSelf s)) relPath).2 relPath]) ∧
      String.join (Print a eng listWriter [] (some s, err)).1 =
        String.join ((eng.Aggregate (removeSelf s)).Buckets.map (fun e =>
          (defaultPalette a).BucketHeader e relPath
              (decide (1 < (eng.Aggregate (removeSelf s)).Buckets.length)) ++
            (defaultPalette a).StackLines e.Signature
              (calcBucketsLengths (eng.Aggregate (removeSelf s)) relPath).1
              (calcBucketsLengths (eng.Aggregate (removeSelf s)) relPath).2 relPath))) ∧
    ((err = none ∨ err = some GoError.EOF) → eng.IsRace (removeSelf s) = true →
      (Print a eng listWriter [] (some s, err)).1 =
        (removeSelf s).Goroutines.flatMap (fun e =>
          [(defaultPalette a).GoroutineHeader e relPath
              (decide (1 < (removeSelf s).Goroutines.length)),
            (defaultPalette a).StackLines e.Signature
              (calcGoroutinesLengths (removeSelf s) relPath).1
              (calcGoroutinesLengths (removeSelf s) relPath).2 relPath]) ∧
      String.join (Print a eng listWriter [] (some s, err)).1 =
        String.join ((removeSelf s).Goroutines.map (fun e =>
          (defaultPalette a).GoroutineHeader e relPath
              (decide (1 < (removeSelf s).Goroutines.length)) ++
            (defaultPalette a).StackLines e.Signature
              (calcGoroutinesLengths (removeSelf s) relPath).1
              (calcGoroutinesLengths (removeSelf s) relPath).2 relPath))) := by
  constructor
  · intro he hr
    have h := Print_fst_some a eng listWriter [] s err he
    rw [listWriter_foldl, List.nil_append] at h
    simp only [hr, Bool.false_eq_true, if_false] at h
    exact ⟨h, by rw [h, join_flatMap_pair]⟩
  · intro he hr
    have h := Print_fst_some a eng listWriter [] s err he
    rw [listWriter_foldl, List.nil_append] at h
    simp only [hr, if_true] at h
    exact ⟨h, by rw [h, join_flatMap_pair]⟩

/-! ## Layout calculator: growth -/

theorem entries_mono {α : Type} (calls : α → List Call) (pf : pathFormat) (l₁ l₂ : List α)
    (e : α) :
    ((l₁ ++ l₂).foldl (fun acc e => (calls e).foldl (calcCall pf) acc) (0, 0)).1 ≤
        ((l₁ ++ e :: l₂).foldl (fun acc e => (calls e).foldl (calcCall pf) acc) (0, 0)).1 ∧
      ((l₁ ++ l₂).foldl (fun acc e => (calls e).foldl (calcCall pf) acc) (0, 0)).2 ≤
        ((l₁ ++ e :: l₂).foldl (fun acc e => (calls e).foldl (calcCall pf) acc) (0, 0)).2 := by
  have hbig := (entries_spec calls pf (l₁ ++ e :: l₂)).1
  have hleast := (entries_spec calls pf (l₁ ++ l₂)).2.2.1
  apply hleast
  intro x hx c hc
  apply hbig x _ c hc
  rcases List.mem_append.1 hx with h | h
  · exact List.mem_append_left _ h
  · exact List.mem_append_right _ (List.mem_cons_of_mem _ h)

/-- C15: adding an entry, at any place of the collection, never decreases
either width, for buckets and for goroutines alike; and the widths are a
function of the collection and the mode, so computing them again on the same
input gives the same pair. -/
theorem calcLengths_mono (pf : pathFormat) (a₁ a₂ : List Bucket) (b : Bucket)
    (g₁ g₂ : List Goroutine) (g : Goroutine) :
    ((calcBucketsLengths ⟨a₁ ++ a₂⟩ pf).1 ≤ (calcBucketsLengths ⟨a₁ ++ b :: a₂⟩ pf).1 ∧
      (calcBucketsLengths ⟨a₁ ++ a₂⟩ pf).2 ≤ (calcBucketsLengths ⟨a₁ ++ b :: a₂⟩ pf).2) ∧
    ((calcGoroutinesLengths ⟨g₁ ++ g₂⟩ pf).1 ≤ (calcGoroutinesLengths ⟨g₁ ++ g :: g₂⟩ pf).1 ∧
      (calcGoroutinesLengths ⟨g₁ ++ g₂⟩ pf).2 ≤ (calcGoroutinesLengths ⟨g₁ ++ g :: g₂⟩ pf).2) ∧
    (∀ (x y : Aggregated), x = y → calcBucketsLengths x pf = calcBucketsLengths y pf) ∧
    (∀ (x y : Snapshot), x = y → calcGoroutinesLengths x pf = calcGoroutinesLengths y pf) :=
  ⟨entries_mono (fun e : Bucket => e.Signature.Stack.Calls) pf a₁ a₂ b,
    entries_mono (fun e : Goroutine => e.Signature.Stack.Calls) pf g₁ g₂ g,
    fun _ _ h => by rw [h], fun _ _ h => by rw [h]⟩

/-! ## Call line: no cut -/

theorem fmtLeftS_small (wid : Int) (s : String) (h0 : 0 ≤ wid) (h1 : wid ≤ 1000000) :
    fmtLeftS wid s = s ++ spaces (wid.toNat - runeCount s) := by
  have ht : tooLarge wid = false := by
    simp only [tooLarge, Bool.or_eq_false_iff, decide_eq_false_iff_not]
    omega
  have hn : wid.natAbs = wid.toNat := by omega
  simp [fmtLeftS, ht, hn]

/-- C16, the claim as worded fails: at the width 1000001 the text
`%!(BADWIDTH)` stands between the package colour and the directory name, so
the name does not come immediately after the colour. -/
theorem callLine_badwidth_between :
    ¬ (("    " ++ samplePalette.Package ++ sampleCall.Func.DirName).data <+:
        (samplePalette.callLine sampleCall 10 1000001 relPath).data) ∧
    ("    " ++ samplePalette.Package ++ "%!(BADWIDTH)" ++ sampleCall.Func.DirName).data <+:
        (samplePalette.callLine sampleCall 10 1000001 relPath).data ∧
    samplePalette.callLine sampleCall 10 1000001 relPath =
      "    P%!(BADWIDTH)main Sa.go:12    MmainA(1, 2)R" := by
  refine ⟨by decide, by decide, by decide⟩

/-- C16, amended: `callLine` never cuts a string, whatever the widths from 0
on.  For a width from 0 to 1000000, smaller than the string or not, the line
holds the whole directory name immediately after the package colour and the
whole of `formatCall` immediately after the source colour, and a width not
above the length of the string adds no blank.  For a width above 1000000 the
text `%!(BADWIDTH)` stands between the colour and the string, which follows
whole and without a blank added.  The last conjunct gives the whole line in
both cases. -/
theorem callLine_no_cut (p : Palette) (c : Call) (srcLen pkgLen : Int) (pf : pathFormat)
    (hs : 0 ≤ srcLen) (hp : 0 ≤ pkgLen) :
    (pkgLen ≤ 1000000 →
      ("    " ++ p.Package ++ c.Func.DirName).data <+: (p.callLine c srcLen pkgLen pf).data) ∧
    (srcLen ≤ 1000000 →
      ("    " ++ p.Package ++ fmtLeftS pkgLen c.Func.DirName ++ " " ++ p.SrcFile ++
          formatCall pf c).data <+: (p.callLine c srcLen pkgLen pf).data) ∧
    (pkgLen ≤ 1000000 → pkgLen.toNat ≤ runeCount c.Func.DirName →
      fmtLeftS pkgLen c.Func.DirName = c.Func.DirName) ∧
    (srcLen ≤ 1000000 → srcLen.toNat ≤ runeCount (formatCall pf c) →
      fmtLeftS srcLen (formatCall pf c) = formatCall pf c) ∧
    (1000000 < pkgLen →
      fmtLeftS pkgLen c.Func.DirName = "%!(BADWIDTH)" ++ c.Func.DirName ∧
      ("    " ++ p.Package ++ "%!(BADWIDTH)" ++ c.Func.DirName ++ " " ++ p.SrcFile).data <+:
        (p.callLine c srcLen pkgLen pf).data) ∧
    (1000000 < srcLen →
      fmtLeftS srcLen (formatCall pf c) = "%!(BADWIDTH)" ++ formatCall pf c ∧
      ("    " ++ p.Package ++ fmtLeftS pkgLen c.Func.DirName ++ " " ++ p.SrcFile ++
          "%!(BADWIDTH)" ++ formatCall pf c ++ " " ++ p.functionColor c).data <+:
        (p.callLine c srcLen pkgLen pf).data) ∧
    p.callLine c srcLen pkgLen pf =
      "    " ++ p.Package ++
        (if pkgLen ≤ 1000000 then
          c.Func.DirName ++ spaces (pkgLen.toNat - runeCount c.Func.DirName)
        else "%!(BADWIDTH)" ++ c.Func.DirName) ++ " " ++
        p.SrcFile ++
        (if srcLen ≤ 1000000 then
          formatCall pf c ++ spaces (srcLen.toNat - runeCount (formatCall pf c))
        else "%!(BADWIDTH)" ++ formatCall pf c) ++ " " ++
        p.functionColor c ++ c.Func.Name ++
        p.Arguments ++ "(" ++ c.Args.String ++ ")" ++ p.EOLReset := by
  have hlarge : ∀ (w : Int) (s : String), 1000000 < w →
      fmtLeftS w s = "%!(BADWIDTH)" ++ s := by
    intro w s h
    have ht : tooLarge w = true := by
      simp only [tooLarge, Bool.or_eq_true, decide_eq_true_eq]
      left
      omega
    simp [fmtLeftS, ht, badWidthString]
  refine ⟨?_, ?_, ?_, ?_, ?_, ?_, ?_⟩
  · intro h1
    refine ⟨(spaces (pkgLen.toNat - runeCount c.Func.DirName) ++ " " ++ p.SrcFile ++
      fmtLeftS srcLen (formatCall pf c) ++ " " ++ p.functionColor c ++ c.Func.Name ++
      p.Arguments ++ "(" ++ c.Args.String ++ ")" ++ p.EOLReset).data, ?_⟩
    simp [Palette.callLine, fmtLeftS_small pkgLen _ hp h1]
  · intro h1
    refine ⟨(spaces (srcLen.toNat - runeCount (formatCall pf c)) ++ " " ++ p.functionColor c ++
      c.Func.Name ++ p.Arguments ++ "(" ++ c.Args.String ++ ")" ++ p.EOLReset).data, ?_⟩
    simp [Palette.callLine, fmtLeftS_small srcLen _ hs h1]
  · intro h1 h
    rw [fmtLeftS_small pkgLen _ hp h1, Nat.sub_eq_zero_of_le h]
    simp [spaces]
  · intro h1 h
    rw [fmtLeftS_small srcLen _ hs h1, Nat.sub_eq_zero_of_le h]
    simp [spaces]
  · intro h1
    refine ⟨hlarge pkgLen _ h1, ?_⟩
    refine ⟨(fmtLeftS srcLen (formatCall pf c) ++ " " ++ p.functionColor c ++ c.Func.Name ++
      p.Arguments ++ "(" ++ c.Args.String ++ ")" ++ p.EOLReset).data, ?_⟩
    simp [Palette.callLine, hlarge pkgLen _ h1]
  · intro h1
    refine ⟨hlarge srcLen _ h1, ?_⟩
    refine ⟨(c.Func.Name ++ p.Arguments ++ "(" ++ c.Args.String ++ ")" ++ p.EOLReset).data, ?_⟩
    simp [Palette.callLine, hlarge srcLen _ h1]
  · have e1 : fmtLeftS pkgLen c.Func.DirName =
        (if pkgLen ≤ 1000000 then
          c.Func.DirName ++ spaces (pkgLen.toNat - runeCount c.Func.DirName)
        else "%!(BADWIDTH)" ++ c.Func.DirName) := by
      by_cases h1 : pkgLen ≤ 1000000
      · rw [if_pos h1, fmtLeftS_small pkgLen _ hp h1]
      · rw [if_neg h1, hlarge pkgLen _ (by omega)]
    have e2 : fmtLeftS srcLen (formatCall pf c) =
        (if srcLen ≤ 1000000 then
          formatCall pf c ++ spaces (srcLen.toNat - runeCount (formatCall pf c))
        else "%!(BADWIDTH)" ++ formatCall pf c) := by
      by_cases h1 : srcLen ≤ 1000000
      · rw [if_pos h1, fmtLeftS_small srcLen _ hs h1]
      · rw [if_neg h1, hlarge srcLen _ (by omega)]
    rw [← e1, ← e2]
    rfl

/-- C16, amended, at concrete inputs: widths 2 and 3, smaller than the strings,
and the width 1000001, which `fmt` refuses. -/
theorem callLine_no_cut_witness :
    ("    " ++ samplePalette.Package ++ sampleCall.Func.DirName).data <+:
      (samplePalette.callLine sampleCall 2 3 relPath).data ∧
    ("    " ++ samplePalette.Package ++ "%!(BADWIDTH)" ++ sampleCall.Func.DirName ++ " " ++
        samplePalette.SrcFile).data <+:
      (samplePalette.callLine sampleCall 10 1000001 relPath).data :=
  ⟨(callLine_no_cut samplePalette sampleCall 2 3 relPath (by decide) (by decide)).1 (by decide),
    ((callLine_no_cut samplePalette sampleCall 10 1000001 relPath (by decide)
      (by decide)).2.2.2.2.1 (by decide)).2⟩

/-! ## Base mode: path separators -/

theorem digitChar_not_separator (d : Nat) (hd : d < 16) :
    isPathSeparator (Nat.digitChar d) = false := by
  interval_cases d <;> decide

theorem toDigitsCore_not_separator (b fuel n : Nat) (ds : List Char) (hb : 0 < b ∧ b ≤ 16)
    (hds : ∀ ch ∈ ds, isPathSeparator ch = false) :
    ∀ ch ∈ Nat.toDigitsCore b fuel n ds, isPathSeparator ch = false := by
  induction fuel generalizing n ds with
  | zero => simpa [Nat.toDigitsCore] using hds
  | succ fuel ih =>
    unfold Nat.toDigitsCore
    have hcons : ∀ ch ∈ Nat.digitChar (n % b) :: ds, isPathSeparator ch = false := by
      intro ch hch
      rcases List.mem_cons.1 hch with rfl | h
      · exact digitChar_not_separator _ (lt_of_lt_of_le (Nat.mod_lt _ hb.1) hb.2)
      · exact hds ch h
    by_cases h0 : n / b = 0
    · simpa only [h0, if_true] using hcons
    · simp only [h0, if_false]
      exact ih _ _ hcons

theorem fmtD_not_separator (i : Int) : ∀ ch ∈ (fmtD i).data, isPathSeparator ch = false := by
  have hrepr : ∀ n : Nat, ∀ ch ∈ (Nat.repr n).data, isPathSeparator ch = false := by
    intro n ch hch
    exact toDigitsCore_not_separator 10 (n + 1) n [] (by decide) (by simp) ch
      (by simpa [Nat.repr, Nat.toDigits, List.asString] using hch)
  intro ch hch
  unfold fmtD at hch
  split at hch
  · rw [String.data_append] at hch
    rcases List.mem_append.1 hch with h | h
    · have : ch = '-' := by simpa using h
      rw [this]
      decide
    · exact hrepr _ ch h
  · exact hrepr _ ch hch

/-- C17, the claim as worded fails: base mode prints `SrcName` as it is, and a
call record whose `SrcName` holds a slash gives a result with that slash. -/
theorem formatCall_base_slash :
    formatCall basePath slashCall = "x/y.go:1" ∧
    (formatCall basePath slashCall).data.any isPathSeparator = true := by
  refine ⟨by decide, by decide⟩

/-- C17, amended: in base mode the result is `SrcName`, a colon and the line,
whatever the three path fields hold; the part after `SrcName` has no path
separator; so when `SrcName` is a bare file name, with no separator, the
result has none. -/
theorem formatCall_base_no_separator (c : Call)
    (h : ∀ ch ∈ c.SrcName.data, isPathSeparator ch = false) :
    (∀ ch ∈ (formatCall basePath c).data, isPathSeparator ch = false) ∧
    formatCall basePath c = c.SrcName ++ (":" ++ fmtD c.Line) ∧
    (∀ ch ∈ (":" ++ fmtD c.Line).data, isPathSeparator ch = false) ∧
    (∀ remote loc rel : String,
      formatCall basePath
          { c with RemoteSrcPath := remote, LocalSrcPath := loc, RelSrcPath := rel } =
        formatCall basePath c) := by
  have hform : formatCall basePath c = c.SrcName ++ (":" ++ fmtD c.Line) := by
    simp [formatCall, basePath, relPath, fullPath, String.append_assoc]
  have htail : ∀ ch ∈ (":" ++ fmtD c.Line).data, isPathSeparator ch = false := by
    intro ch hch
    rw [String.data_append] at hch
    rcases List.mem_append.1 hch with h1 | h1
    · have : ch = ':' := by simpa using h1
      rw [this]
      decide
    · exact fmtD_not_separator _ ch h1
  refine ⟨?_, hform, htail, ?_⟩
  · intro ch hch
    rw [hform, String.data_append] at hch
    rcases List.mem_append.1 hch with h1 | h1
    · exact h ch h1
    · exact htail ch h1
  · intro remote loc rel
    simp [formatCall, basePath, relPath, fullPath]

/-- C17, amended, at a concrete input: `sampleCall`, whose `SrcName` is `a.go`. -/
theorem formatCall_base_no_separator_witness :
    '/' ∉ (formatCall basePath sampleCall).data ∧
    formatCall basePath sampleCall = "a.go:12" :=
  ⟨fun hmem =>
      absurd ((formatCall_base_no_separator sampleCall (by decide)).1 '/' hmem) (by decide),
    by decide⟩

/-! ## Alignment of the call lines -/

theorem utf8Len_ge_length (cs : List Char) : cs.length ≤ String.utf8Len cs := by
  induction cs with
  | nil => simp
  | cons c cs ih =>
    have := Char.utf8Size_pos c
    simp only [List.length_cons, String.utf8Len_cons]
    omega

theorem runeCount_le_goLen (s : String) : runeCount s ≤ goLen s :=
  utf8Len_ge_length s.data

theorem runeCount_spaces (n : Nat) : runeCount (spaces n) = n := by
  simp [runeCount, spaces]

theorem runeCount_append (s t : String) : runeCount (s ++ t) = runeCount s + runeCount t := by
  simp [runeCount]

theorem runeCount_longName (n : Nat) : runeCount (longName n) = n := by
  simp [runeCount, longName]

theorem goLen_longName (n : Nat) : goLen (longName n) = n := by
  unfold goLen longName
  rw [String.utf8ByteSize_mk]
  induction n with
  | zero => simp
  | succ n ih =>
    have h1 : Char.utf8Size 'd' = 1 := by decide
    rw [List.replicate_succ, String.utf8Len_cons, ih, h1]

theorem runeCount_fmtLeftS (w : Nat) (s : String) (hw : w ≤ 1000000) (hs : goLen s ≤ w) :
    runeCount (fmtLeftS (w : Int) s) = w := by
  have hr := runeCount_le_goLen s
  rw [fmtLeftS_small (w : Int) s (by omega) (by omega), runeCount_append, runeCount_spaces]
  simp only [Int.toNat_ofNat]
  omega

/-- Offset of the function colour in a call line whose widths fit the call. -/
theorem callLine_offset (p : Palette) (c : Call) (pf : pathFormat) (sl pl : Nat)
    (hsl : sl ≤ 1000000) (hpl : pl ≤ 1000000) (h1 : goLen (formatCall pf c) ≤ sl)
    (h2 : goLen c.Func.DirName ≤ pl) :
    runeCount (fmtLeftS (pl : Int) c.Func.DirName) = pl ∧
    runeCount (fmtLeftS (sl : Int) (formatCall pf c)) = sl ∧
    ∃ pre : String,
      p.callLine c (sl : Int) (pl : Int) pf =
        pre ++ (p.functionColor c ++ c.Func.Name ++ p.Arguments ++ "(" ++ c.Args.String ++ ")" ++
          p.EOLReset) ∧
      runeCount pre = 4 + runeCount p.Package + pl + 1 + runeCount p.SrcFile + sl + 1 := by
  have hp := runeCount_fmtLeftS pl c.Func.DirName hpl h2
  have hs := runeCount_fmtLeftS sl (formatCall pf c) hsl h1
  refine ⟨hp, hs, "    " ++ p.Package ++ fmtLeftS (pl : Int) c.Func.DirName ++ " " ++ p.SrcFile ++
    fmtLeftS (sl : Int) (formatCall pf c) ++ " ", ?_, ?_⟩
  · simp [Palette.callLine, String.append_assoc]
  · simp only [runeCount_append, hp, hs]
    have h4 : runeCount "    " = 4 := rfl
    have h1 : runeCount " " = 1 := rfl
    omega

/-- C18, the claim as worded fails: for a bucket whose call has a directory
name of 1000001 bytes the width `pkgLen` is 1000001, `fmt` refuses it, and the
package field is `%!(BADWIDTH)` and the name, 1000013 characters and not
`pkgLen`. -/
theorem callLine_huge_width :
    (calcBucketsLengths ⟨[hugeBucket]⟩ relPath).2 = 1000001 ∧
    runeCount (fmtLeftS ((calcBucketsLengths ⟨[hugeBucket]⟩ relPath).2 : Int)
      hugeCall.Func.DirName) = 1000013 ∧
    runeCount (fmtLeftS ((calcBucketsLengths ⟨[hugeBucket]⟩ relPath).2 : Int)
      hugeCall.Func.DirName) ≠ (calcBucketsLengths ⟨[hugeBucket]⟩ relPath).2 := by
  have hdir : hugeCall.Func.DirName = longName 1000001 := rfl
  have hcalls : hugeBucket.Signature.Stack.Calls = [hugeCall] := rfl
  have hw : (calcBucketsLengths ⟨[hugeBucket]⟩ relPath).2 = 1000001 := by
    unfold calcBucketsLengths
    simp only [List.foldl_cons, List.foldl_nil]
    rw [hcalls]
    simp only [List.foldl_cons, List.foldl_nil]
    unfold calcCall
    simp only []
    rw [hdir, goLen_longName]
    rfl
  have hbad : tooLarge ((1000001 : Nat) : Int) = true := by decide
  have hlen : runeCount badWidthString = 12 := by decide
  have hf : runeCount (fmtLeftS ((calcBucketsLengths ⟨[hugeBucket]⟩ relPath).2 : Int)
      hugeCall.Func.DirName) = 1000013 := by
    rw [hw]
    unfold fmtLeftS
    rw [if_pos hbad, runeCount_append, hlen, hdir, runeCount_longName]
  refine ⟨hw, hf, ?_⟩
  rw [hf, hw]
  decide

/-- C18, amended: when both widths of the layout calculator are at most
1000000, every call line of a call of the collection, buckets or goroutines,
has a package field of exactly `pkgLen` characters and a source field of
exactly `srcLen` characters, so the function colour starts, counted in
characters, at the offset 4 + |Package| + pkgLen + 1 + |SrcFile| + srcLen + 1
in every call line of the render. -/
theorem callLine_aligned (p : Palette) (pf : pathFormat) (a : Aggregated) (s : Snapshot) :
    ((calcBucketsLengths a pf).1 ≤ 1000000 → (calcBucketsLengths a pf).2 ≤ 1000000 →
      ∀ e ∈ a.Buckets, ∀ c ∈ e.Signature.Stack.Calls,
        runeCount (fmtLeftS ((calcBucketsLengths a pf).2 : Int) c.Func.DirName) =
          (calcBucketsLengths a pf).2 ∧
        runeCount (fmtLeftS ((calcBucketsLengths a pf).1 : Int) (formatCall pf c)) =
          (calcBucketsLengths a pf).1 ∧
        ∃ pre : String,
          p.callLine c ((calcBucketsLengths a pf).1 : Int) ((calcBucketsLengths a pf).2 : Int) pf =
            pre ++ (p.functionColor c ++ c.Func.Name ++ p.Arguments ++ "(" ++ c.Args.String ++
              ")" ++ p.EOLReset) ∧
          runeCount pre =
            4 + runeCount p.Package + (calcBucketsLengths a pf).2 + 1 + runeCount p.SrcFile +
              (calcBucketsLengths a pf).1 + 1) ∧
    ((calcGoroutinesLengths s pf).1 ≤ 1000000 → (calcGoroutinesLengths s pf).2 ≤ 1000000 →
      ∀ e ∈ s.Goroutines, ∀ c ∈ e.Signature.Stack.Calls,
        runeCount (fmtLeftS ((calcGoroutinesLengths s pf).2 : Int) c.Func.DirName) =
          (calcGoroutinesLengths s pf).2 ∧
        runeCount (fmtLeftS ((calcGoroutinesLengths s pf).1 : Int) (formatCall pf c)) =
          (calcGoroutinesLengths s pf).1 ∧
        ∃ pre : String,
          p.callLine c ((calcGoroutinesLengths s pf).1 : Int)
              ((calcGoroutinesLengths s pf).2 : Int) pf =
            pre ++ (p.functionColor c ++ c.Func.Name ++ p.Arguments ++ "(" ++ c.Args.String ++
              ")" ++ p.EOLReset) ∧
          runeCount pre =
            4 + runeCount p.Package + (calcGoroutinesLengths s pf).2 + 1 + runeCount p.SrcFile +
              (calcGoroutinesLengths s pf).1 + 1) := by
  constructor
  · intro h1 h2 e he c hc
    have hb := (entries_spec (fun e : Bucket => e.Signature.Stack.Calls) pf a.Buckets).1 e he c hc
    exact callLine_offset p c pf _ _ h1 h2 hb.1 hb.2
  · intro h1 h2 e he c hc
    have hb :=
      (entries_spec (fun e : Goroutine => e.Signature.Stack.Calls) pf s.Goroutines).1 e he c hc
    exact callLine_offset p c pf _ _ h1 h2 hb.1 hb.2

/-- C18, amended, at a concrete input: the call lines of `sampleSnapshot`. -/
theorem callLine_aligned_witness :
    runeCount (fmtLeftS ((calcGoroutinesLengths sampleSnapshot relPath).2 : Int)
        sampleCall.Func.DirName) = (calcGoroutinesLengths sampleSnapshot relPath).2 ∧
    runeCount (fmtLeftS ((calcGoroutinesLengths sampleSnapshot relPath).1 : Int)
        (formatCall relPath sampleCall)) = (calcGoroutinesLengths sampleSnapshot relPath).1 :=
  ⟨((callLine_aligned samplePalette relPath ⟨[]⟩ sampleSnapshot).2 (by decide) (by decide)
      sampleGoroutine (by decide) sampleCall (by decide)).1,
    ((callLine_aligned samplePalette relPath ⟨[]⟩ sampleSnapshot).2 (by decide) (by decide)
      sampleGoroutine (by decide) sampleCall (by decide)).2.1⟩

/-! ## Capture of the dump: properties -/

theorem length_makeBytes (n : Nat) : (makeBytes n).length = n :=
  List.length_replicate n 0

theorem getStackLoop_fits (dump buf : List Nat) (fuel : Nat) (h : dump.length < buf.length) :
    getStackLoop dump (fuel + 1) buf = some (dump, buf.length) := by
  have hmin : min dump.length buf.length = dump.length := Nat.min_eq_left (Nat.le_of_lt h)
  simp only [getStackLoop, runtimeStack, hmin, if_pos h]
  congr 2
  rw [List.take_append_of_le_length (by simp), List.take_take]
  simp

theorem getStackLoop_retry (dump buf : List Nat) (fuel : Nat) (h : buf.length ≤ dump.length) :
    getStackLoop dump (fuel + 1) buf =
      getStackLoop dump fuel (makeBytes (2 * buf.length)) := by
  have hmin : min dump.length buf.length = buf.length := Nat.min_eq_right h
  simp only [getStackLoop, runtimeStack, hmin, lt_irrefl, if_false]

theorem getStackLoop_some (dump : List Nat) (k : Nat) :
    ∀ (buf : List Nat) (fuel : Nat), (∀ j < k, buf.length * 2 ^ j ≤ dump.length) →
      dump.length < buf.length * 2 ^ k → k < fuel →
      getStackLoop dump fuel buf = some (dump, buf.length * 2 ^ k) := by
  induction k with
  | zero =>
    intro buf fuel _ hlt hf
    obtain ⟨f, rfl⟩ : ∃ f, fuel = f + 1 := ⟨fuel - 1, by omega⟩
    rw [getStackLoop_fits dump buf f (by simpa using hlt)]
    simp
  | succ k ih =>
    intro buf fuel hall hlt hf
    obtain ⟨f, rfl⟩ : ∃ f, fuel = f + 1 := ⟨fuel - 1, by omega⟩
    have h0 : buf.length ≤ dump.length := by simpa using hall 0 (by omega)
    rw [getStackLoop_retry dump buf f h0]
    have hlen : (makeBytes (2 * buf.length)).length = 2 * buf.length := length_makeBytes _
    have := ih (makeBytes (2 * buf.length)) f
      (by
        intro j hj
        have := hall (j + 1) (by omega)
        rw [hlen]
        rw [pow_succ] at this
        calc 2 * buf.length * 2 ^ j = buf.length * (2 ^ j * 2) := by ring
          _ ≤ dump.length := this)
      (by
        rw [hlen]
        rw [pow_succ] at hlt
        calc dump.length < buf.length * (2 ^ k * 2) := hlt
          _ = 2 * buf.length * 2 ^ k := by ring)
      (by omega)
    rw [this, hlen]
    congr 2
    rw [pow_succ]
    ring

theorem getStackLoop_none (dump : List Nat) (fuel : Nat) :
    ∀ (buf : List Nat) (k : Nat), (∀ j < k, buf.length * 2 ^ j ≤ dump.length) → fuel ≤ k →
      getStackLoop dump fuel buf = none := by
  induction fuel with
  | zero =>
    intro buf k _ _
    rfl
  | succ f ih =>
    intro buf k hall hf
    obtain ⟨k', rfl⟩ : ∃ k', k = k' + 1 := ⟨k - 1, by omega⟩
    have h0 : buf.length ≤ dump.length := by simpa using hall 0 (by omega)
    rw [getStackLoop_retry dump buf f h0]
    apply ih _ k'
    · intro j hj
      have := hall (j + 1) (by omega)
      rw [pow_succ] at this
      rw [length_makeBytes]
      calc 2 * buf.length * 2 ^ j = buf.length * (2 ^ j * 2) := by ring
        _ ≤ dump.length := this
    · omega

/-- C19: with a capture that fills `min t n` bytes of a buffer of `n` bytes and
reports that count, `getStack` ends for every dump and returns the whole dump:
there is a least `k` with `t < 2048 * 2^k`; every earlier buffer, of
`2048 * 2^j` bytes with `j < k`, is at most `t` long, so its attempt reports
a count that is not below the buffer length and is retried with a buffer twice
as long (also when the dump is exactly as long as the buffer); the attempt
number `k + 1` returns the `t` bytes of the dump from a buffer of
`2048 * 2^k` bytes, and fewer attempts return nothing.  For a dump of less
than 2^62 bytes every buffer length stays below 2^63, the range of Go's `int`. -/
theorem getStack_complete (dump : List Nat) :
    ∃ k : Nat,
      dump.length < 2048 * 2 ^ k ∧
      (∀ j < k, 2048 * 2 ^ j ≤ dump.length) ∧
      (∀ fuel, k < fuel →
        getStackLoop dump fuel (makeBytes 2048) = some (dump, 2048 * 2 ^ k)) ∧
      (∀ fuel, k < fuel → getStack dump fuel = some dump) ∧
      (∀ fuel, fuel ≤ k → getStack dump fuel = none) ∧
      (dump.length = 2048 → k = 1) ∧
      (dump.length < 2 ^ 62 → 2048 * 2 ^ k < 2 ^ 63) := by
  have hex : ∃ k, dump.length < 2048 * 2 ^ k :=
    ⟨dump.length, lt_of_lt_of_le (Nat.lt_two_pow dump.length)
      (Nat.le_mul_of_pos_left _ (by norm_num))⟩
  have hlen : (makeBytes 2048).length = 2048 := length_makeBytes _
  have hmin : ∀ j < Nat.find hex, (makeBytes 2048).length * 2 ^ j ≤ dump.length := by
    intro j hj
    have := Nat.find_min hex hj
    rw [hlen]
    omega
  have hlt : dump.length < (makeBytes 2048).length * 2 ^ Nat.find hex := by
    rw [hlen]
    exact Nat.find_spec hex
  refine ⟨Nat.find hex, Nat.find_spec hex, ?_, ?_, ?_, ?_, ?_, ?_⟩
  · intro j hj
    have := hmin j hj
    rwa [hlen] at this
  · intro fuel hf
    have := getStackLoop_some dump (Nat.find hex) _ fuel hmin hlt hf
    rwa [hlen] at this
  · intro fuel hf
    rw [getStack, getStackLoop_some dump (Nat.find hex) _ fuel hmin hlt hf]
    rfl
  · intro fuel hf
    rw [getStack, getStackLoop_none dump fuel _ (Nat.find hex) hmin hf]
    rfl
  · intro h2048
    have h1 : Nat.find hex ≤ 1 := Nat.find_min' hex (by rw [h2048]; norm_num)
    have h0 : Nat.find hex ≠ 0 := by
      intro h
      have := Nat.find_spec hex
      rw [h, h2048] at this
      norm_num at this
    omega
  · intro hsmall
    cases hk : Nat.find hex with
    | zero => norm_num
    | succ k' =>
      have hprev := hmin k' (by omega)
      rw [hlen] at hprev
      rw [pow_succ]
      omega

/-! ## Self-exclusion: what changes and what does not -/

/-- C20: the self-exclusion step, which `Print` applies to every parsed
snapshot and which reads no mark of the current goroutine, leaves a snapshot
without goroutine, or whose first goroutine has an empty stack, as it is;
otherwise it replaces the stack of the first goroutine by the frames, in their
order, whose `RemoteSrcPath` differs from the first frame's, so that no frame
left has that path, every other frame is still there, and the stack is
strictly shorter; the first goroutine's other fields and every other goroutine
stay as they are. -/
theorem removeSelf_frame (s : Snapshot) :
    (s.Goroutines = [] → removeSelf s = s) ∧
    (∀ (g : Goroutine) (rest : List Goroutine), s.Goroutines = g :: rest →
      g.Signature.Stack.Calls = [] → removeSelf s = s) ∧
    (∀ (g : Goroutine) (rest : List Goroutine) (c0 : Call) (cs : List Call),
      s.Goroutines = g :: rest → g.Signature.Stack.Calls = c0 :: cs →
      (removeSelf s).Goroutines =
          { g with
            Signature :=
              { g.Signature with
                Stack :=
                  { g.Signature.Stack with
                    Calls :=
                      (c0 :: cs).filter
                        (fun c => decide (c.RemoteSrcPath ≠ c0.RemoteSrcPath)) } } }
            :: rest ∧
        ((c0 :: cs).filter (fun c => decide (c.RemoteSrcPath ≠ c0.RemoteSrcPath))).Sublist
          (c0 :: cs) ∧
        (∀ c, c ∈ (c0 :: cs).filter (fun c => decide (c.RemoteSrcPath ≠ c0.RemoteSrcPath)) ↔
          (c ∈ c0 :: cs ∧ c.RemoteSrcPath ≠ c0.RemoteSrcPath)) ∧
        ((c0 :: cs).filter (fun c => decide (c.RemoteSrcPath ≠ c0.RemoteSrcPath))).length <
          (c0 :: cs).length) ∧
    (removeSelf s).Goroutines.tail = s.Goroutines.tail ∧
    (removeSelf s).Goroutines.length = s.Goroutines.length := by
  refine ⟨?_, ?_, ?_, ?_, ?_⟩
  · intro h
    simp only [removeSelf, h]
  · intro g rest hg hc
    simp only [removeSelf, hg, hc]
  · intro g rest c0 cs hg hc
    refine ⟨?_, List.filter_sublist _, ?_, ?_⟩
    · simp only [removeSelf, hg, hc, removeSelfCalls_eq_filter]
    · intro c
      rw [List.mem_filter]
      simp
    · have h0 : (c0 :: cs).filter (fun c => decide (c.RemoteSrcPath ≠ c0.RemoteSrcPath)) =
          cs.filter (fun c => decide (c.RemoteSrcPath ≠ c0.RemoteSrcPath)) := by
        simp [List.filter_cons]
      rw [h0, List.length_cons]
      exact Nat.lt_succ_of_le (List.length_filter_le _ _)
  · cases hg : s.Goroutines with
    | nil => simp only [removeSelf, hg]
    | cons g rest =>
      cases hc : g.Signature.Stack.Calls with
      | nil => simp only [removeSelf, hg, hc]
      | cons c0 cs => simp only [removeSelf, hg, hc, List.tail_cons]
  · cases hg : s.Goroutines with
    | nil => simp only [removeSelf, hg]
    | cons g rest =>
      cases hc : g.Signature.Stack.Calls with
      | nil => simp only [removeSelf, hg, hc]
      | cons c0 cs => simp only [removeSelf, hg, hc, List.length_cons]

end Ppstack
